import Mathlib

/-!
Verification of `datastoreflex/client.py` (DatastoreFlex: a Google Cloud
Datastore client extended with transparent offload of configured entity
attributes, called "columns", to blob storage).

The canonical implementation embedded here is `src/datastoreflex/client.py`
(the variant containing `_allocate_ids`).  External collaborators (the
underlying metadata store `_get_multi`/`_put_multi`/`allocate_ids`, the blob
store `CloudFiles`, the `json` codec and the process environment) are
modelled as explicit parameters/oracles, following the spec's interface
boundary.  Entity attribute values are a tagged union (string / integer /
bytes), as in the spec's data model; Python's `"/".join` raising `TypeError`
on non-string items is modelled with `Except`.
-/

namespace DatastoreFlex

/-- Tagged union of entity attribute values (string, integer, bytes). -/
inductive Value where
  | vStr (s : String)
  | vInt (n : Int)
  | vBytes (b : List Nat)
  deriving DecidableEq, Repr

/-- The identifier part of a datastore key: a store-assigned numeric id or a
caller-assigned name. -/
inductive KeyId where
  | kId (n : Int)
  | kName (s : String)
  deriving DecidableEq, Repr

/-- A datastore key: a kind and an optional identifier (`none` models a
partial/incomplete key, i.e. Python `key.id` and `key.name` both `None`). -/
structure EKey where
  kind : String
  id : Option KeyId
  deriving DecidableEq, Repr

/-- Python `key.id`: the numeric id when the key has one, otherwise `None`
(in particular `None` for a key with a name). -/
def pyId (k : EKey) : Option Int :=
  match k.id with
  | some (KeyId.kId n) => some n
  | _ => none

/-- Python `str(key.id_or_name)`: the id rendered in decimal, or the name,
or the string `"None"` for a partial key. -/
def idOrNameStr (k : EKey) : String :=
  match k.id with
  | some (KeyId.kId n) => toString n
  | some (KeyId.kName s) => s
  | none => "None"

/-- An entity: a key plus a mapping (association list, unique keys by
construction of the operations below) from attribute name to value. -/
structure Entity where
  key : EKey
  attrs : List (String × Value)
  deriving DecidableEq, Repr

/-- Lookup in an attribute mapping (first binding wins, as in a dict). -/
def attrGet : List (String × Value) → String → Option Value
  | [], _ => none
  | q :: l, a => if q.1 = a then some q.2 else attrGet l a

/-- Assignment in an attribute mapping: replace the existing binding in
place, otherwise append (Python dict `d[k] = v`). -/
def attrSet : List (String × Value) → String → Value → List (String × Value)
  | [], a, v => [(a, v)]
  | q :: l, a, v => if q.1 = a then (q.1, v) :: l else q :: attrSet l a v

/-- Removal from an attribute mapping (Python dict `d.pop(k, None)`). -/
def attrPop : List (String × Value) → String → List (String × Value)
  | [], _ => []
  | q :: l, a => if q.1 = a then attrPop l a else q :: attrPop l a

/-- Attribute lookup, `entity[name]` / `entity.get(name)`. -/
def Entity.getAttr (e : Entity) (a : String) : Option Value :=
  attrGet e.attrs a

/-- Attribute assignment `entity[name] = v`. -/
def Entity.setAttr (e : Entity) (a : String) (v : Value) : Entity :=
  { e with attrs := attrSet e.attrs a v }

/-- Attribute removal `entity.pop(name, None)` (no error when absent). -/
def Entity.popAttr (e : Entity) (a : String) : Entity :=
  { e with attrs := attrPop e.attrs a }

/-- Configuration of one offloaded column: `bucket_path` and the ordered
`path_elements` attribute names. -/
structure ColumnConfig where
  bucket_path : String
  path_elements : List String
  deriving DecidableEq, Repr

/-- A NamespaceConfig: ordered mapping from column name to its config
(Python dict preserves insertion order). -/
abbrev NsConfig := List (String × ColumnConfig)

/-- The full `self._config` dictionary; only the key `"column"` is used. -/
abbrev CfgDict := List (String × NsConfig)

/-- Python `"/".join` item check: a non-`str` item raises `TypeError`. -/
def valueAsStr : Value → Except String String
  | Value.vStr s => Except.ok s
  | _ => Except.error "TypeError: sequence item: expected str instance"

/-- Check every join item is a string, left to right (first offender
raises). -/
def strListOf : List Value → Except String (List String)
  | [] => Except.ok []
  | v :: vs => do
    let s ← valueAsStr v
    let ss ← strListOf vs
    Except.ok (s :: ss)

/-- Python `"/".join(elements)`. -/
def pyJoin (vs : List Value) : Except String String :=
  (strListOf vs).map (String.intercalate "/")

/-- The inner loop of `_get_filespaths`: collect the path-element values of
one entity, substituting the literal `"non_existent"` for a missing
attribute and flagging that a substitution happened. -/
def collectElems (e : Entity) : List String → List Value × Bool
  | [] => ([], false)
  | pe :: rest =>
    let tail := collectElems e rest
    match e.getAttr pe with
    | some v => (v :: tail.1, tail.2)
    | none => (Value.vStr "non_existent" :: tail.1, true)

/-- One entity's entry in `_get_filespaths`: `None` when `append_none` and a
path element was missing, otherwise the join of the elements followed by
`str(entity.key.id_or_name)` (the join may raise on non-string values). -/
def filePathOf (e : Entity) (pes : List String) (appendNone : Bool) :
    Except String (Option String) :=
  let c := collectElems e pes
  if appendNone ∧ c.2 then Except.ok none
  else (pyJoin (c.1 ++ [Value.vStr (idOrNameStr e.key)])).map some

/-- `_get_filespaths(entities, path_elements, append_none)`. -/
def getFilespaths (entities : List Entity) (pes : List String)
    (appendNone : Bool) : Except String (List (Option String)) :=
  match entities with
  | [] => Except.ok []
  | e :: rest => do
    let p ← filePathOf e pes appendNone
    let ps ← getFilespaths rest pes appendNone
    Except.ok (p :: ps)

/-- One item of a `CloudFiles.get` batch result: an error indicator and the
fetched content. -/
structure FetchResult where
  error : Option String
  content : Value
  deriving DecidableEq, Repr

/-- Placeholder result for an impossible `None` path in read mode (read-mode
path resolution never yields `None`); it behaves as an error, so the entity
is left untouched. -/
def dummyFetch : FetchResult := { error := some "no path", content := Value.vStr "" }

/-- One column iteration of `_read_columns`: resolve read-mode paths on the
current entities, fetch the batch, and merge each successful item's content
into its entity (`entity[column] = content`); items whose result carries an
error are skipped. -/
def readStep (fetch : String → String → FetchResult)
    (acc : List Entity) (ccfg : String × ColumnConfig) :
    Except String (List Entity) := do
  let ps ← getFilespaths acc ccfg.2.path_elements false
  let results := ps.map (fun p? =>
    match p? with
    | some p => fetch ccfg.2.bucket_path p
    | none => dummyFetch)
  Except.ok (List.zipWith
    (fun e r => match r.error with
      | some _ => e
      | none => e.setAttr ccfg.1 r.content)
    acc results)

/-- `DatastoreFlex._read_columns`, over the active column configs. -/
def read_columns (fetch : String → String → FetchResult)
    (nsCfg : NsConfig) (entities : List Entity) : Except String (List Entity) :=
  nsCfg.foldlM (readStep fetch) entities

/-- The unit handed to `CloudFiles.puts` on write. -/
structure FileDescriptor where
  content : Value
  path : String
  compress : String
  compression_level : Int
  cache_control : String
  deriving DecidableEq, Repr

/-- Build one upload dictionary; `cache_control` is
`getenv("CACHE_CONTROL", "public; max-age=3600")`, the environment being the
`env` parameter. -/
def mkFileD (env : Option String) (compression : String)
    (compressionLevel : Int) (v : Value) (p : String) : FileDescriptor :=
  { content := v
    path := p
    compress := compression
    compression_level := compressionLevel
    cache_control := env.getD "public; max-age=3600" }

/-- The descriptor one entity contributes in a single column iteration of
`_write_columns`: `none` when the write-mode path is `None` (`continue`) or
the column attribute is absent (`entity[column]` raises `KeyError`,
`continue`). -/
def uploadOne (env : Option String) (compression : String)
    (compressionLevel : Int) (column : String) (e : Entity)
    (p? : Option String) : Option FileDescriptor :=
  match p? with
  | none => none
  | some p => (e.getAttr column).map (fun v => mkFileD env compression compressionLevel v p)

/-- The mutation a single column iteration of `_write_columns` applies to one
entity: the column is popped exactly when a descriptor was built for it
(path present and attribute present); otherwise the entity is unchanged. -/
def stripOne (column : String) (e : Entity) (p? : Option String) : Entity :=
  match p? with
  | none => e
  | some _ =>
    match e.getAttr column with
    | none => e
    | some _ => e.popAttr column

/-- The upload list a single column iteration of `_write_columns` builds. -/
def columnUploads (env : Option String) (compression : String)
    (compressionLevel : Int) (column : String)
    (entities : List Entity) (paths : List (Option String)) :
    List FileDescriptor :=
  (List.zipWith (uploadOne env compression compressionLevel column) entities paths).reduceOption

/-- The entity-batch mutation of a single column iteration of
`_write_columns`. -/
def columnStrip (column : String) (entities : List Entity)
    (paths : List (Option String)) : List Entity :=
  List.zipWith (stripOne column) entities paths

/-- Observable calls made along the write path, in order: the identifier
allocation request, per-column path resolution, per-column blob upload
(`CloudFiles(bucket).puts`), and the final metadata-store commit
(`self._put_multi`). -/
inductive Event where
  | alloc (base : EKey) (n : Nat)
  | resolve (column : String) (paths : List (Option String))
  | upload (column : String) (bucket : String) (files : List FileDescriptor)
  | commit (entities : List Entity)
  deriving DecidableEq, Repr

def Event.isAlloc : Event → Bool
  | Event.alloc _ _ => true
  | _ => false

def Event.isResolve : Event → Bool
  | Event.resolve _ _ => true
  | _ => false

def Event.isCommit : Event → Bool
  | Event.commit _ => true
  | _ => false

/-- One column iteration of `_write_columns`: resolve write-mode paths
(`append_none=True`), build the upload list, pop the uploaded column from
the contributing entities, and upload the batch. -/
def writeStep (env : Option String) (compression : String)
    (compressionLevel : Int) (acc : List Entity × List Event)
    (ccfg : String × ColumnConfig) :
    Except String (List Entity × List Event) := do
  let ps ← getFilespaths acc.1 ccfg.2.path_elements true
  let fs := columnUploads env compression compressionLevel ccfg.1 acc.1 ps
  Except.ok (columnStrip ccfg.1 acc.1 ps,
    acc.2 ++ [Event.resolve ccfg.1 ps, Event.upload ccfg.1 ccfg.2.bucket_path fs])

/-- Predicate of `_allocate_ids`: Python `entity.key.id is None` (true both
for partial keys and for keys with a name). -/
def isUnnamed (e : Entity) : Bool := (pyId e.key).isNone

/-- Assign allocated keys back to the unnamed entities in submission order
(`zip(unnamed_entities, ids)`: a shorter id list leaves trailing unnamed
entities unchanged). -/
def assignIds : List Entity → List EKey → List Entity
  | [], _ => []
  | e :: rest, ids =>
    if isUnnamed e then
      match ids with
      | [] => e :: assignIds rest []
      | k :: ks => { e with key := k } :: assignIds rest ks
    else
      e :: assignIds rest ids

/-- `DatastoreFlex._allocate_ids`: entities whose key has no numeric id get
keys freshly requested from the metadata store (`alloc` oracle), using the
first such entity's key as the allocation basis. -/
def allocateIds (alloc : EKey → Nat → List EKey) (entities : List Entity) :
    List Entity :=
  match entities.filter isUnnamed with
  | [] => entities
  | u0 :: us => assignIds entities (alloc u0.key (u0 :: us).length)

/-- The allocation request `_allocate_ids` issues, as an event list (empty
when every entity already has a numeric id). -/
def allocEvents (entities : List Entity) : List Event :=
  match entities.filter isUnnamed with
  | [] => []
  | u0 :: us => [Event.alloc u0.key (u0 :: us).length]

/-- `DatastoreFlex._write_columns`: allocate identifiers first, then strip
and upload each configured column in order. -/
def write_columns (alloc : EKey → Nat → List EKey) (env : Option String)
    (compression : String) (compressionLevel : Int) (nsCfg : NsConfig)
    (entities : List Entity) : Except String (List Entity × List Event) :=
  nsCfg.foldlM (writeStep env compression compressionLevel)
    (allocateIds alloc entities, allocEvents entities)

/-- `DatastoreFlex.put_multi`: `_write_columns` then the single
metadata-store commit `self._put_multi(entities, ...)`. -/
def put_multi (alloc : EKey → Nat → List EKey) (env : Option String)
    (compression : String) (compressionLevel : Int) (nsCfg : NsConfig)
    (entities : List Entity) : Except String (List Entity × List Event) := do
  let r ← write_columns alloc env compression compressionLevel nsCfg entities
  Except.ok (r.1, r.2 ++ [Event.commit r.1])

/-- `DatastoreFlex.put`: `put_multi` on the singleton batch. -/
def put (alloc : EKey → Nat → List EKey) (env : Option String)
    (compression : String) (compressionLevel : Int) (nsCfg : NsConfig)
    (entity : Entity) : Except String (List Entity × List Event) :=
  put_multi alloc env compression compressionLevel nsCfg [entity]

/-- The facade instance state: its namespace, the `self._config` cache
(`none` models Python `None`), and the metadata store contents (the external
collaborator behind `_get_multi`/`_put_multi`, modelled as a keyed list). -/
structure ClientState where
  ns : String
  cachedConfig : Option CfgDict
  store : List (EKey × Entity)
  deriving DecidableEq, Repr

/-- Metadata-store read of one key (`_get_multi([key])`, found entities
only). -/
def storeGet : List (EKey × Entity) → EKey → Option Entity
  | [], _ => none
  | q :: rest, k => if q.1 = k then some q.2 else storeGet rest k

/-- Metadata-store upsert of one entity. -/
def storePut : List (EKey × Entity) → Entity → List (EKey × Entity)
  | [], e => [(e.key, e)]
  | q :: rest, e => if q.1 = e.key then (q.1, e) :: rest else q :: storePut rest e

/-- The well-known config key: kind `namespace + "_config"`, name
`COLUMN_CONFIG_KEY_NAME = "column"`. -/
def configKeyOf (ns : String) : EKey :=
  { kind := ns ++ "_config", id := some (KeyId.kName "column") }

/-- Python `dict.get(k, dflt)` on an association list. -/
def lookupD {α : Type} (d : List (String × α)) (k : String) (dflt : α) : α :=
  (((d.find? (fun p => decide (p.1 = k))).map (·.2)).getD dflt)

/-- The `config` property together with `_read_config`.  On a cache miss the
code first sets `self._config = \x7b\x7d` (empty dict) and then runs
`_read_config`, which either stores the decoded record under the key
`"column"`, stores an empty mapping when the record is absent
(`IndexError` caught), or raises out of `json.loads` leaving the cache at
the already-assigned empty dict.  The state is returned in every case; the
first component is the value produced or the uncaught exception. -/
def configProperty (jsonLoads : String → Except String NsConfig)
    (st : ClientState) : Except String CfgDict × ClientState :=
  match st.cachedConfig with
  | some d => (Except.ok d, st)
  | none =>
    match storeGet st.store (configKeyOf st.ns) with
    | none =>
      -- `self._get_multi([config_key])[0]` raised IndexError, caught:
      -- `self._config["column"] = \x7b\x7d`
      (Except.ok [("column", [])],
        { st with cachedConfig := some [("column", [])] })
    | some ent =>
      match ent.getAttr "value" with
      | none =>
        -- `config.get("value", "\x7b\x7d")`: `json.loads` of the literal
        -- empty object always yields the empty mapping
        (Except.ok [("column", [])],
          { st with cachedConfig := some [("column", [])] })
      | some (Value.vStr s) =>
        match jsonLoads s with
        | Except.ok d =>
          (Except.ok [("column", d)],
            { st with cachedConfig := some [("column", d)] })
        | Except.error e =>
          -- uncaught decode error; `self._config` stays the empty dict
          (Except.error e, { st with cachedConfig := some [] })
      | some _ =>
        -- `json.loads` of a non-string raises TypeError, uncaught
        (Except.error "TypeError: the JSON object must be str",
          { st with cachedConfig := some [] })

/-- `DatastoreFlex.get`: fetch from the metadata store; absent key returns
`None` without touching the columns; otherwise run `_read_columns` on the
singleton batch. -/
def get_st (fetch : String → String → FetchResult)
    (jsonLoads : String → Except String NsConfig) (st : ClientState)
    (k : EKey) : Except String (Option Entity) × ClientState :=
  match storeGet st.store k with
  | none => (Except.ok none, st)
  | some ent =>
    match configProperty jsonLoads st with
    | (Except.error e, st') => (Except.error e, st')
    | (Except.ok d, st') =>
      match read_columns fetch (lookupD d "column" []) [ent] with
      | Except.error e => (Except.error e, st')
      | Except.ok es => (Except.ok es.head?, st')

/-- `DatastoreFlex.get_multi`: batch-fetch (found entities, in key order)
then `_read_columns` over the whole batch. -/
def get_multi_st (fetch : String → String → FetchResult)
    (jsonLoads : String → Except String NsConfig) (st : ClientState)
    (keys : List EKey) : Except String (List Entity) × ClientState :=
  let entities := keys.filterMap (storeGet st.store)
  match configProperty jsonLoads st with
  | (Except.error e, st') => (Except.error e, st')
  | (Except.ok d, st') =>
    (read_columns fetch (lookupD d "column" []) entities, st')

/-- `DatastoreFlex.put_multi` with the facade state threaded through:
`_write_columns` (allocation, then config load, then the column loop) and
finally the metadata-store commit of the stripped batch. -/
def put_multi_st (alloc : EKey → Nat → List EKey) (env : Option String)
    (compression : String) (compressionLevel : Int)
    (jsonLoads : String → Except String NsConfig) (st : ClientState)
    (entities : List Entity) :
    Except String (List Entity × List Event) × ClientState :=
  let entsA := allocateIds alloc entities
  let evs0 := allocEvents entities
  match configProperty jsonLoads st with
  | (Except.error e, st') => (Except.error e, st')
  | (Except.ok d, st') =>
    match (lookupD d "column" []).foldlM
        (writeStep env compression compressionLevel) (entsA, evs0) with
    | Except.error e => (Except.error e, st')
    | Except.ok (ents, evs) =>
      (Except.ok (ents, evs ++ [Event.commit ents]),
        { st' with store := ents.foldl storePut st'.store })

/-- `DatastoreFlex.add_config`: JSON-encode the config, write it under the
well-known key in one `_put_multi([config_entity])` call, reset
`self._config` to `None`, and return the written entity. -/
def add_config (jsonDumps : NsConfig → String) (st : ClientState)
    (cfg : NsConfig) : (Entity × List Event) × ClientState :=
  let ck := configKeyOf st.ns
  let ent : Entity := { key := ck, attrs := [("value", Value.vStr (jsonDumps cfg))] }
  ((ent, [Event.commit [ent]]),
    { st with store := storePut st.store ent, cachedConfig := none })

/-! Lemmas about entity attribute operations. -/

theorem popAttr_key (e : Entity) (a : String) : (e.popAttr a).key = e.key := rfl

theorem setAttr_key (e : Entity) (a : String) (v : Value) :
    (e.setAttr a v).key = e.key := rfl

theorem attrGet_attrPop_self (l : List (String × Value)) (a : String) :
    attrGet (attrPop l a) a = none := by
  induction l with
  | nil => rfl
  | cons q l ih =>
    by_cases h : q.1 = a
    · simpa [attrPop, h] using ih
    · simpa [attrPop, attrGet, h] using ih

theorem attrGet_attrPop_ne (l : List (String × Value)) (a b : String)
    (hne : b ≠ a) : attrGet (attrPop l a) b = attrGet l b := by
  have hab : ¬ a = b := fun hh => hne hh.symm
  induction l with
  | nil => rfl
  | cons q l ih =>
    by_cases h : q.1 = a
    · have hqb : ¬ q.1 = b := by rw [h]; exact hab
      simp [attrPop, attrGet, h, hqb, hab, ih]
    · by_cases hqb : q.1 = b
      · simp [attrPop, attrGet, h, hqb, hne]
      · simp [attrPop, attrGet, h, hqb, ih]

theorem attrGet_attrSet_self (l : List (String × Value)) (a : String)
    (v : Value) : attrGet (attrSet l a v) a = some v := by
  induction l with
  | nil => simp [attrSet, attrGet]
  | cons q l ih =>
    by_cases h : q.1 = a
    · simp [attrSet, attrGet, h]
    · simp [attrSet, attrGet, h, ih]

theorem attrGet_attrSet_ne (l : List (String × Value)) (a b : String)
    (v : Value) (hne : b ≠ a) : attrGet (attrSet l a v) b = attrGet l b := by
  have hab : ¬ a = b := fun hh => hne hh.symm
  induction l with
  | nil => simp [attrSet, attrGet, hab]
  | cons q l ih =>
    by_cases h : q.1 = a
    · have hqb : ¬ q.1 = b := by rw [h]; exact hab
      simp [attrSet, attrGet, h, hqb, hab]
    · by_cases hqb : q.1 = b
      · simp [attrSet, attrGet, h, hqb, hne]
      · simp [attrSet, attrGet, h, hqb, ih]

theorem getAttr_popAttr_self (e : Entity) (a : String) :
    (e.popAttr a).getAttr a = none := attrGet_attrPop_self e.attrs a

theorem getAttr_popAttr_ne (e : Entity) (a b : String) (hne : b ≠ a) :
    (e.popAttr a).getAttr b = e.getAttr b := attrGet_attrPop_ne e.attrs a b hne

theorem getAttr_setAttr_self (e : Entity) (a : String) (v : Value) :
    (e.setAttr a v).getAttr a = some v := attrGet_attrSet_self e.attrs a v

theorem getAttr_setAttr_ne (e : Entity) (a b : String) (v : Value)
    (hne : b ≠ a) : (e.setAttr a v).getAttr b = e.getAttr b :=
  attrGet_attrSet_ne e.attrs a b v hne

/-! Lemmas about path resolution (`_get_filespaths`). -/

theorem collectElems_snd (e : Entity) (pes : List String) :
    (collectElems e pes).2 = pes.any (fun pe => (e.getAttr pe).isNone) := by
  induction pes with
  | nil => rfl
  | cons pe rest ih =>
    cases h : e.getAttr pe with
    | none => simp [collectElems, h]
    | some v => simp [collectElems, h, ih]

theorem collectElems_fst (e : Entity) (pes : List String) :
    (collectElems e pes).1 =
      pes.map (fun pe => (e.getAttr pe).getD (Value.vStr "non_existent")) := by
  induction pes with
  | nil => rfl
  | cons pe rest ih =>
    cases h : e.getAttr pe with
    | none => simp [collectElems, h, ih]
    | some v => simp [collectElems, h, ih]

theorem strListOf_strings (ss : List String) :
    strListOf (ss.map Value.vStr) = Except.ok ss := by
  induction ss with
  | nil => rfl
  | cons s rest ih =>
    show (do
      let s' ← valueAsStr (Value.vStr s)
      let ss' ← strListOf (rest.map Value.vStr)
      Except.ok (s' :: ss')) = Except.ok (s :: rest)
    rw [ih]
    rfl

theorem pyJoin_strings (ss : List String) :
    pyJoin (ss.map Value.vStr) = Except.ok (String.intercalate "/" ss) := by
  unfold pyJoin
  rw [strListOf_strings]
  rfl

/-- The string a path element contributes according to the resolver: the
attribute's string value, or the sentinel `"non_existent"` when absent (the
non-string case is excluded by hypothesis wherever this is used). -/
def readElemStr (e : Entity) (pe : String) : String :=
  match e.getAttr pe with
  | some (Value.vStr s) => s
  | some _ => ""
  | none => "non_existent"

theorem collectElems_fst_strings (e : Entity) (pes : List String)
    (hstr : ∀ pe ∈ pes, ∀ v, e.getAttr pe = some v → ∃ s, v = Value.vStr s) :
    (collectElems e pes).1 = (pes.map (readElemStr e)).map Value.vStr := by
  induction pes with
  | nil => rfl
  | cons pe rest ih =>
    have hrest : ∀ q ∈ rest, ∀ v, e.getAttr q = some v → ∃ s, v = Value.vStr s :=
      fun q hq => hstr q (List.mem_cons_of_mem _ hq)
    cases h : e.getAttr pe with
    | none => simp [collectElems, h, readElemStr, ih hrest]
    | some v =>
      rcases hstr pe (List.mem_cons_self _ _) v h with ⟨s, rfl⟩
      simp [collectElems, h, readElemStr, ih hrest]

/-- The blob path for one entity when every present path element is a
string. -/
def resolvedPath (e : Entity) (pes : List String) : String :=
  String.intercalate "/" (pes.map (readElemStr e) ++ [idOrNameStr e.key])

theorem filePathOf_read (e : Entity) (pes : List String)
    (hstr : ∀ pe ∈ pes, ∀ v, e.getAttr pe = some v → ∃ s, v = Value.vStr s) :
    filePathOf e pes false = Except.ok (some (resolvedPath e pes)) := by
  unfold filePathOf
  simp only [Bool.false_eq_true, false_and, if_false]
  rw [collectElems_fst_strings e pes hstr]
  have : (pes.map (readElemStr e)).map Value.vStr ++ [Value.vStr (idOrNameStr e.key)]
      = ((pes.map (readElemStr e)) ++ [idOrNameStr e.key]).map Value.vStr := by
    simp
  rw [this, pyJoin_strings]
  rfl

theorem filePathOf_write_missing (e : Entity) (pes : List String)
    (hmiss : ∃ pe ∈ pes, e.getAttr pe = none) :
    filePathOf e pes true = Except.ok none := by
  unfold filePathOf
  have h2 : (collectElems e pes).2 = true := by
    rw [collectElems_snd]
    rcases hmiss with ⟨pe, hmem, hnone⟩
    exact List.any_eq_true.mpr ⟨pe, hmem, by simp [hnone]⟩
  simp [h2]

theorem filePathOf_write_present (e : Entity) (pes : List String)
    (hstr : ∀ pe ∈ pes, ∀ v, e.getAttr pe = some v → ∃ s, v = Value.vStr s)
    (hall : ∀ pe ∈ pes, (e.getAttr pe).isSome) :
    filePathOf e pes true = Except.ok (some (resolvedPath e pes)) := by
  unfold filePathOf
  have h2 : (collectElems e pes).2 = false := by
    rw [collectElems_snd]
    simp only [List.any_eq_false]
    intro pe hmem
    have := hall pe hmem
    simp [Option.isNone_iff_eq_none]
    intro hn
    rw [hn] at this
    simp at this
  simp only [h2, and_false, if_false]
  rw [collectElems_fst_strings e pes hstr]
  have : (pes.map (readElemStr e)).map Value.vStr ++ [Value.vStr (idOrNameStr e.key)]
      = ((pes.map (readElemStr e)) ++ [idOrNameStr e.key]).map Value.vStr := by
    simp
  rw [this, pyJoin_strings]
  rfl

theorem getFilespaths_cons (e : Entity) (es : List Entity) (pes : List String)
    (b : Bool) (p? : Option String) (ps : List (Option String))
    (h1 : filePathOf e pes b = Except.ok p?)
    (h2 : getFilespaths es pes b = Except.ok ps) :
    getFilespaths (e :: es) pes b = Except.ok (p? :: ps) := by
  simp only [getFilespaths, h1, h2]
  rfl

theorem getFilespaths_length (es : List Entity) (pes : List String) (b : Bool)
    (ps : List (Option String)) (h : getFilespaths es pes b = Except.ok ps) :
    ps.length = es.length := by
  induction es generalizing ps with
  | nil =>
    have h' : ([] : List (Option String)) = ps := Except.ok.inj h
    rw [← h']
    rfl
  | cons e rest ih =>
    simp only [getFilespaths] at h
    cases h1 : filePathOf e pes b with
    | error msg => rw [h1] at h; exact Except.noConfusion h
    | ok p? =>
      rw [h1] at h
      cases h2 : getFilespaths rest pes b with
      | error msg => rw [h2] at h; exact Except.noConfusion h
      | ok ps' =>
        rw [h2] at h
        have h' : p? :: ps' = ps := Except.ok.inj h
        rw [← h']
        simp [ih ps' h2]

theorem getFilespaths_get (es : List Entity) (pes : List String) (b : Bool)
    (ps : List (Option String)) (h : getFilespaths es pes b = Except.ok ps)
    (i : Nat) (e : Entity) (he : es[i]? = some e) :
    ∃ p?, ps[i]? = some p? ∧ filePathOf e pes b = Except.ok p? := by
  induction es generalizing ps i with
  | nil => simp at he
  | cons e0 rest ih =>
    simp only [getFilespaths] at h
    cases h1 : filePathOf e0 pes b with
    | error msg => rw [h1] at h; exact Except.noConfusion h
    | ok p0 =>
      rw [h1] at h
      cases h2 : getFilespaths rest pes b with
      | error msg => rw [h2] at h; exact Except.noConfusion h
      | ok ps' =>
        rw [h2] at h
        have h' : p0 :: ps' = ps := Except.ok.inj h
        subst h'
        cases i with
        | zero =>
          simp at he
          subst he
          exact ⟨p0, by simp, h1⟩
        | succ j =>
          simp at he
          rcases ih ps' h2 j he with ⟨p?, hp1, hp2⟩
          exact ⟨p?, by simpa using hp1, hp2⟩

theorem getFilespaths_ok_of (es : List Entity) (pes : List String) (b : Bool)
    (f : Entity → Option String)
    (h : ∀ e ∈ es, filePathOf e pes b = Except.ok (f e)) :
    getFilespaths es pes b = Except.ok (es.map f) := by
  induction es with
  | nil => rfl
  | cons e rest ih =>
    have he := h e (List.mem_cons_self _ _)
    have hrest := ih (fun q hq => h q (List.mem_cons_of_mem _ hq))
    simpa using getFilespaths_cons e rest pes b (f e) (rest.map f) he hrest

/-! Generic helper lemmas for `Except` folds and `zipWith`. -/

theorem except_bind_ok {ε α β : Type} (a : α) (f : α → Except ε β) :
    (Except.ok a >>= f) = f a := rfl

theorem except_bind_err {ε α β : Type} (e : ε) (f : α → Except ε β) :
    ((Except.error e : Except ε α) >>= f) = Except.error e := rfl

theorem exceptFoldlM_append {ε α β : Type} (f : β → α → Except ε β)
    (l1 l2 : List α) (b : β) :
    (l1 ++ l2).foldlM f b = (l1.foldlM f b).bind (l2.foldlM f) := by
  induction l1 generalizing b with
  | nil => rfl
  | cons x xs ih =>
    rw [List.cons_append, List.foldlM_cons, List.foldlM_cons]
    cases hfx : f b x with
    | error e => rfl
    | ok b' =>
      show List.foldlM f b' (xs ++ l2) = (List.foldlM f b' xs).bind (l2.foldlM f)
      exact ih b'

theorem zipWith_get? {α β γ : Type} (f : α → β → γ) (as : List α) (bs : List β)
    (i : Nat) (a : α) (b : β) (ha : as[i]? = some a) (hb : bs[i]? = some b) :
    (List.zipWith f as bs)[i]? = some (f a b) := by
  induction as generalizing bs i with
  | nil => simp at ha
  | cons a0 as ih =>
    cases bs with
    | nil => simp at hb
    | cons b0 bs =>
      cases i with
      | zero =>
        simp at ha hb
        subst ha; subst hb
        simp
      | succ j =>
        simp at ha hb
        simpa using ih bs j ha hb

theorem zipWith_mem {α β γ : Type} (f : α → β → γ) (as : List α) (bs : List β)
    (x : γ) (hx : x ∈ List.zipWith f as bs) :
    ∃ (i : Nat) (a : α) (b : β), as[i]? = some a ∧ bs[i]? = some b ∧ f a b = x := by
  induction as generalizing bs with
  | nil => simp at hx
  | cons a0 as ih =>
    cases bs with
    | nil => simp at hx
    | cons b0 bs =>
      simp only [List.zipWith_cons_cons, List.mem_cons] at hx
      rcases hx with rfl | hx
      · exact ⟨0, a0, b0, by simp, by simp, rfl⟩
      · rcases ih bs hx with ⟨i, a, b, ha, hb, hf⟩
        exact ⟨i + 1, a, b, by simpa using ha, by simpa using hb, hf⟩

/-! Claim C2. -/

/-- Python `str(value)` as the claim's words prescribe for path elements
("the stringified attribute values"); this definition follows the spec text,
not the code, and exists only to be compared with the code's resolver. -/
def claimStringify : Value → String
  | Value.vStr s => s
  | Value.vInt n => toString n
  | Value.vBytes _ => "bytes"

/-- The resolved path as the claim's words prescribe: the "/"-join of the
stringified attribute values, in order, with the sentinel for absent ones,
followed by the stringified identifier.  Follows the spec text, for
comparison only. -/
def claimResolvedPath (e : Entity) (pes : List String) : String :=
  String.intercalate "/"
    (pes.map (fun pe =>
      match e.getAttr pe with
      | some v => claimStringify v
      | none => "non_existent") ++ [idOrNameStr e.key])

/-- An entity whose path-element attribute holds an integer. -/
def c2Entity : Entity :=
  { key := { kind := "k", id := some (KeyId.kId 1) }
    attrs := [("a", Value.vInt 5)] }

/-- C2 counterexample: for the entity with attribute `a = 5` (an integer)
and path elements `["a"]`, the claim prescribes the resolved read-mode path
`"5/1"` (the stringified attribute value followed by the stringified
identifier), but the code does not stringify attribute values: Python's
`"/".join` raises `TypeError` on the integer item, so resolution errors
instead of producing the prescribed path. -/
theorem c2_counterexample :
    getFilespaths [c2Entity] ["a"] false ≠
      Except.ok [some (claimResolvedPath c2Entity ["a"])] ∧
    claimResolvedPath c2Entity ["a"] = "5/1" ∧
    getFilespaths [c2Entity] ["a"] false =
      Except.error "TypeError: sequence item: expected str instance" := by
  refine ⟨?_, rfl, rfl⟩
  intro hcontra
  have h : getFilespaths [c2Entity] ["a"] false =
      Except.error "TypeError: sequence item: expected str instance" := rfl
  rw [h] at hcontra
  exact Except.noConfusion hcontra

/-- C2 (amended): for every entity and ordered list of path-element
attribute names whose present values are strings (non-string values are not
stringified by the code: they make the join raise a `TypeError`), the
resolved blob path is the "/"-join of the attribute values in the given
order followed by the stringified entity identifier; an absent attribute is
replaced by the literal `"non_existent"` in read mode, while in write mode
the entity's path is `None` (not writable for that column) instead of a
sentinel path. -/
theorem c2_path_resolution (e : Entity) (pes : List String)
    (hstr : ∀ pe ∈ pes, ∀ v, e.getAttr pe = some v → ∃ s, v = Value.vStr s) :
    getFilespaths [e] pes false = Except.ok [some (resolvedPath e pes)] ∧
    ((∃ pe ∈ pes, e.getAttr pe = none) →
      getFilespaths [e] pes true = Except.ok [none]) ∧
    ((∀ pe ∈ pes, (e.getAttr pe).isSome) →
      getFilespaths [e] pes true = Except.ok [some (resolvedPath e pes)]) := by
  refine ⟨?_, ?_, ?_⟩
  · exact getFilespaths_cons e [] pes false _ [] (filePathOf_read e pes hstr) rfl
  · intro hmiss
    exact getFilespaths_cons e [] pes true _ []
      (filePathOf_write_missing e pes hmiss) rfl
  · intro hall
    exact getFilespaths_cons e [] pes true _ []
      (filePathOf_write_present e pes hstr hall) rfl

/-- A concrete entity for the C2 witness: id `7`, attribute `x = "a"`,
attribute `y` absent. -/
def c2WEntity : Entity :=
  { key := { kind := "k", id := some (KeyId.kId 7) }
    attrs := [("x", Value.vStr "a")] }

/-- Witness for C2 at a concrete input: read mode substitutes the sentinel
for the missing `y` and yields `"a/non_existent/7"`; write mode yields no
path. -/
theorem c2_witness :
    getFilespaths [c2WEntity] ["x", "y"] false =
      Except.ok [some "a/non_existent/7"] ∧
    getFilespaths [c2WEntity] ["x", "y"] true = Except.ok [none] := by
  have hstr : ∀ pe ∈ ["x", "y"], ∀ v, c2WEntity.getAttr pe = some v →
      ∃ s, v = Value.vStr s := by
    intro pe hpe v hv
    simp only [List.mem_cons, List.mem_singleton] at hpe
    rcases hpe with rfl | rfl | h
    · rw [show c2WEntity.getAttr "x" = some (Value.vStr "a") from rfl] at hv
      exact ⟨"a", (Option.some.inj hv).symm⟩
    · rw [show c2WEntity.getAttr "y" = none from rfl] at hv
      exact Option.noConfusion hv
    · exact absurd h (List.not_mem_nil pe)
  have h := c2_path_resolution c2WEntity ["x", "y"] hstr
  constructor
  · rw [h.1]
    rfl
  · exact h.2.1 ⟨"y", by simp, rfl⟩

/-! Lemmas about the read path (`_read_columns`). -/

theorem exceptFold_decomp {ε α β : Type} (f : β → α → Except ε β)
    (l1 l2 : List α) (b res : β)
    (h : (l1 ++ l2).foldlM f b = Except.ok res) :
    ∃ mid, l1.foldlM f b = Except.ok mid ∧ l2.foldlM f mid = Except.ok res := by
  rw [exceptFoldlM_append] at h
  cases h1 : l1.foldlM f b with
  | error e => rw [h1] at h; exact Except.noConfusion h
  | ok mid => rw [h1] at h; exact ⟨mid, rfl, h⟩

theorem exceptFold_cons_decomp {ε α β : Type} (f : β → α → Except ε β)
    (x : α) (l : List α) (b res : β)
    (h : (x :: l).foldlM f b = Except.ok res) :
    ∃ mid, f b x = Except.ok mid ∧ l.foldlM f mid = Except.ok res := by
  rw [List.foldlM_cons] at h
  cases h1 : f b x with
  | error e => rw [h1] at h; exact Except.noConfusion h
  | ok mid => rw [h1] at h; exact ⟨mid, rfl, h⟩

theorem zipWithMapRight {α β γ δ : Type} (f : α → γ → δ) (g : β → γ)
    (as : List α) (bs : List β) :
    List.zipWith f as (bs.map g) = List.zipWith (fun a b => f a (g b)) as bs := by
  induction as generalizing bs with
  | nil => simp
  | cons a0 as ih =>
    cases bs with
    | nil => simp
    | cons b0 bs => simp [ih]

/-- The merge `_read_columns` applies to one entity: fetch its path (a
missing path, impossible in read mode, behaves as an error), skip on error,
otherwise set the column to the fetched content. -/
def mergeOne (fetch : String → String → FetchResult) (c : String)
    (cc : ColumnConfig) (e : Entity) (p? : Option String) : Entity :=
  let r := match p? with
    | some p => fetch cc.bucket_path p
    | none => dummyFetch
  match r.error with
  | some _ => e
  | none => e.setAttr c r.content

theorem readStep_shape (fetch : String → String → FetchResult) (c : String)
    (cc : ColumnConfig) (ents out : List Entity)
    (h : readStep fetch ents (c, cc) = Except.ok out) :
    ∃ ps, getFilespaths ents cc.path_elements false = Except.ok ps ∧
      out = List.zipWith (mergeOne fetch c cc) ents ps := by
  unfold readStep at h
  cases h1 : getFilespaths ents cc.path_elements false with
  | error e => rw [h1] at h; exact Except.noConfusion h
  | ok ps =>
    rw [h1] at h
    refine ⟨ps, rfl, ?_⟩
    have h' : List.zipWith
        (fun e r => match FetchResult.error r with
          | some _ => e
          | none => e.setAttr c r.content)
        ents (ps.map (fun p? => match p? with
          | some p => fetch cc.bucket_path p
          | none => dummyFetch)) = out := Except.ok.inj h
    rw [← h', zipWithMapRight]
    rfl

theorem mergeOne_key (fetch : String → String → FetchResult) (c : String)
    (cc : ColumnConfig) (e : Entity) (p? : Option String) :
    (mergeOne fetch c cc e p?).key = e.key := by
  unfold mergeOne
  cases p? <;> simp only <;> split <;> simp [setAttr_key]

theorem mergeOne_getAttr_ne (fetch : String → String → FetchResult)
    (c : String) (cc : ColumnConfig) (e : Entity) (p? : Option String)
    (a : String) (hne : a ≠ c) :
    (mergeOne fetch c cc e p?).getAttr a = e.getAttr a := by
  unfold mergeOne
  cases p? <;> simp only <;> split <;> simp [getAttr_setAttr_ne _ _ _ _ hne]

theorem read_columns_pointwise (fetch : String → String → FetchResult)
    (cfg : NsConfig) (ents out : List Entity)
    (h : read_columns fetch cfg ents = Except.ok out)
    (i : Nat) (e0 : Entity) (he : ents[i]? = some e0) :
    ∃ e', out[i]? = some e' ∧ e'.key = e0.key ∧
      ∀ a, a ∉ cfg.map Prod.fst → e'.getAttr a = e0.getAttr a := by
  induction cfg generalizing ents e0 with
  | nil =>
    have h' : ents = out := Except.ok.inj h
    exact ⟨e0, h' ▸ he, rfl, fun a _ => rfl⟩
  | cons ccfg rest ih =>
    rcases exceptFold_cons_decomp _ _ _ _ _ h with ⟨mid, h1, h2⟩
    rcases readStep_shape fetch ccfg.1 ccfg.2 ents mid (by
      cases ccfg; exact h1) with ⟨ps, hps, hmid⟩
    rcases getFilespaths_get ents ccfg.2.path_elements false ps hps i e0 he
      with ⟨p?, hpi, _⟩
    have hmi : mid[i]? = some (mergeOne fetch ccfg.1 ccfg.2 e0 p?) := by
      rw [hmid]
      exact zipWith_get? _ ents ps i e0 p? he hpi
    rcases ih mid h2 _ hmi with ⟨e', hout, hkey, hattrs⟩
    refine ⟨e', hout, ?_, ?_⟩
    · rw [hkey, mergeOne_key]
    · intro a ha
      simp only [List.map_cons, List.mem_cons] at ha
      push_neg at ha
      rw [hattrs a ha.2, mergeOne_getAttr_ne _ _ _ _ _ _ ha.1]

theorem filePathOf_read_isSome (e : Entity) (pes : List String)
    (p? : Option String) (h : filePathOf e pes false = Except.ok p?) :
    ∃ p, p? = some p := by
  unfold filePathOf at h
  simp only [Bool.false_eq_true, false_and, if_false] at h
  cases h1 : pyJoin ((collectElems e pes).1 ++ [Value.vStr (idOrNameStr e.key)]) with
  | error msg => rw [h1] at h; exact Except.noConfusion h
  | ok s =>
    rw [h1] at h
    exact ⟨s, (Except.ok.inj h).symm⟩

theorem nodup_middle_not_mem {α : Type} (xs ys : List α) (x : α)
    (hnd : (xs ++ x :: ys).Nodup) : x ∉ xs ∧ x ∉ ys := by
  constructor
  · intro hx
    exact (List.disjoint_of_nodup_append hnd) hx (List.mem_cons_self x ys)
  · have := (List.nodup_append.mp hnd).2.1
    exact (List.nodup_cons.mp this).1

/-- C3: for every batch read and every configured column, each entity whose
per-item blob fetch reports an error keeps that column's attribute exactly
as it was on the fetched record (in particular absent when absent), no
exception is raised for it, and the rest of the batch is still processed;
each entity whose fetch succeeds has the column set to the fetched content.
`stage` is the batch state after the columns preceding this one, on which
this column's paths are resolved. -/
theorem read_columns_error_isolation
    (fetch : String → String → FetchResult) (pre post : NsConfig)
    (c : String) (cc : ColumnConfig) (entities ents' : List Entity)
    (hnd : ((pre ++ (c, cc) :: post).map Prod.fst).Nodup)
    (h : read_columns fetch (pre ++ (c, cc) :: post) entities = Except.ok ents') :
    ∃ stage ps, read_columns fetch pre entities = Except.ok stage ∧
      getFilespaths stage cc.path_elements false = Except.ok ps ∧
      ∀ (i : Nat) (e0 : Entity), entities[i]? = some e0 →
        ∃ p e', ps[i]? = some (some p) ∧ ents'[i]? = some e' ∧
          ((fetch cc.bucket_path p).error ≠ none →
            e'.getAttr c = e0.getAttr c) ∧
          ((fetch cc.bucket_path p).error ≠ none → e0.getAttr c = none →
            e'.getAttr c = none) ∧
          ((fetch cc.bucket_path p).error = none →
            e'.getAttr c = some (fetch cc.bucket_path p).content) := by
  have hcpre : c ∉ pre.map Prod.fst ∧ c ∉ post.map Prod.fst := by
    have : ((pre.map Prod.fst) ++ c :: (post.map Prod.fst)).Nodup := by
      simpa using hnd
    exact nodup_middle_not_mem _ _ _ this
  rcases exceptFold_decomp (readStep fetch) pre ((c, cc) :: post) entities ents' h
    with ⟨stage, hpre, h2⟩
  rcases exceptFold_cons_decomp (readStep fetch) (c, cc) post stage ents' h2
    with ⟨mid, hstep, hpost⟩
  rcases readStep_shape fetch c cc stage mid hstep with ⟨ps, hps, hmid⟩
  refine ⟨stage, ps, hpre, hps, ?_⟩
  intro i e0 he
  rcases read_columns_pointwise fetch pre entities stage hpre i e0 he
    with ⟨st, hsti, _, hstattrs⟩
  have hstc : st.getAttr c = e0.getAttr c := hstattrs c hcpre.1
  rcases getFilespaths_get stage cc.path_elements false ps hps i st hsti
    with ⟨p?, hpi, hfp⟩
  rcases filePathOf_read_isSome st cc.path_elements p? hfp with ⟨p, rfl⟩
  have hmi : mid[i]? = some (mergeOne fetch c cc st (some p)) := by
    rw [hmid]
    exact zipWith_get? _ stage ps i st (some p) hsti hpi
  rcases read_columns_pointwise fetch post mid ents' hpost i _ hmi
    with ⟨e', he'i, _, he'attrs⟩
  have he'c : e'.getAttr c = (mergeOne fetch c cc st (some p)).getAttr c :=
    he'attrs c hcpre.2
  refine ⟨p, e', hpi, he'i, ?_, ?_, ?_⟩
  · intro herr
    cases herr2 : (fetch cc.bucket_path p).error with
    | none => exact absurd herr2 herr
    | some msg =>
      rw [he'c]
      unfold mergeOne
      simp only [herr2]
      exact hstc
  · intro herr hnone
    cases herr2 : (fetch cc.bucket_path p).error with
    | none => exact absurd herr2 herr
    | some msg =>
      rw [he'c]
      unfold mergeOne
      simp only [herr2]
      rw [hstc, hnone]
  · intro hok
    rw [he'c]
    unfold mergeOne
    simp only [hok]
    exact getAttr_setAttr_self st c _

/-- Blob-store oracle for the C3 witness: only the path `"y/2"` exists. -/
def c3Fetch : String → String → FetchResult := fun _ p =>
  if p = "y/2" then { error := none, content := Value.vStr "C" }
  else { error := some "404", content := Value.vStr "" }

def c3CC : ColumnConfig := { bucket_path := "b", path_elements := ["t"] }

def c3EntA : Entity :=
  { key := { kind := "k", id := some (KeyId.kId 1) }
    attrs := [("t", Value.vStr "x")] }

def c3EntB : Entity :=
  { key := { kind := "k", id := some (KeyId.kId 2) }
    attrs := [("t", Value.vStr "y")] }

/-- Witness for C3 at a concrete two-entity batch: the first entity's fetch
errors (path `"x/1"` absent) and it is left without the column, while the
second entity's fetch succeeds and receives the content. -/
theorem c3_witness :
    ∃ stage ps,
      read_columns c3Fetch [] [c3EntA, c3EntB] = Except.ok stage ∧
      getFilespaths stage c3CC.path_elements false = Except.ok ps ∧
      ∀ (i : Nat) (e0 : Entity), [c3EntA, c3EntB][i]? = some e0 →
        ∃ p e', ps[i]? = some (some p) ∧
          [c3EntA, c3EntB.setAttr "blob" (Value.vStr "C")][i]? = some e' ∧
          ((c3Fetch c3CC.bucket_path p).error ≠ none →
            e'.getAttr "blob" = e0.getAttr "blob") ∧
          ((c3Fetch c3CC.bucket_path p).error ≠ none →
            e0.getAttr "blob" = none → e'.getAttr "blob" = none) ∧
          ((c3Fetch c3CC.bucket_path p).error = none →
            e'.getAttr "blob" = some (c3Fetch c3CC.bucket_path p).content) :=
  read_columns_error_isolation c3Fetch [] [] "blob" c3CC [c3EntA, c3EntB]
    [c3EntA, c3EntB.setAttr "blob" (Value.vStr "C")] (by decide) rfl

/-! Lemmas about the write path (`_write_columns`). -/

theorem stripOne_key (c : String) (e : Entity) (p? : Option String) :
    (stripOne c e p?).key = e.key := by
  unfold stripOne
  cases p? <;> simp only <;> split <;> simp [popAttr_key]

theorem stripOne_getAttr_ne (c : String) (e : Entity) (p? : Option String)
    (a : String) (hne : a ≠ c) :
    (stripOne c e p?).getAttr a = e.getAttr a := by
  unfold stripOne
  cases p? <;> simp only <;> split <;> simp [getAttr_popAttr_ne _ _ _ hne]

theorem stripOne_none (c : String) (e : Entity) :
    stripOne c e none = e := rfl

theorem stripOne_some_absent (c : String) (e : Entity) (p : String)
    (h : e.getAttr c = none) : stripOne c e (some p) = e := by
  unfold stripOne
  simp [h]

theorem stripOne_some_present (c : String) (e : Entity) (p : String)
    (v : Value) (h : e.getAttr c = some v) :
    stripOne c e (some p) = e.popAttr c := by
  unfold stripOne
  simp [h]

theorem stripOne_getAttr_cases (c : String) (e : Entity) (p? : Option String) :
    (stripOne c e p?).getAttr c = e.getAttr c ∨
      (stripOne c e p?).getAttr c = none := by
  cases p? with
  | none => exact Or.inl rfl
  | some p =>
    cases h : e.getAttr c with
    | none =>
      rw [stripOne_some_absent c e p h]
      exact Or.inl h
    | some v =>
      rw [stripOne_some_present c e p v h]
      exact Or.inr (getAttr_popAttr_self e c)

theorem stripOne_getAttr_some (c : String) (e : Entity) (p? : Option String)
    (a : String) (v : Value) (h : (stripOne c e p?).getAttr a = some v) :
    e.getAttr a = some v := by
  by_cases hac : a = c
  · subst hac
    rcases stripOne_getAttr_cases a e p? with heq | hnone
    · rw [← heq]; exact h
    · rw [hnone] at h; exact Option.noConfusion h
  · rw [← stripOne_getAttr_ne c e p? a hac]; exact h

theorem uploadOne_none (env : Option String) (compression : String)
    (lvl : Int) (c : String) (e : Entity) :
    uploadOne env compression lvl c e none = none := rfl

theorem uploadOne_some (env : Option String) (compression : String)
    (lvl : Int) (c : String) (e : Entity) (p : String) (v : Value)
    (h : e.getAttr c = some v) :
    uploadOne env compression lvl c e (some p) =
      some (mkFileD env compression lvl v p) := by
  unfold uploadOne
  rw [h]
  rfl

theorem writeStep_shape (env : Option String) (compression : String)
    (lvl : Int) (col : String) (cc : ColumnConfig)
    (ents : List Entity) (evs : List Event) (ents' : List Entity)
    (evs' : List Event)
    (h : writeStep env compression lvl (ents, evs) (col, cc) =
      Except.ok (ents', evs')) :
    ∃ ps, getFilespaths ents cc.path_elements true = Except.ok ps ∧
      ents' = columnStrip col ents ps ∧
      evs' = evs ++ [Event.resolve col ps,
        Event.upload col cc.bucket_path
          (columnUploads env compression lvl col ents ps)] := by
  unfold writeStep at h
  cases h1 : getFilespaths ents cc.path_elements true with
  | error e => rw [h1] at h; exact Except.noConfusion h
  | ok ps =>
    rw [h1] at h
    have h' := Except.ok.inj h
    refine ⟨ps, rfl, ?_, ?_⟩
    · exact (congrArg Prod.fst h').symm
    · exact (congrArg Prod.snd h').symm

/-- Events appended by the column loop: no allocation and no commit events,
only resolve/upload pairs. -/
theorem write_fold_events (env : Option String) (compression : String)
    (lvl : Int) (cfg : NsConfig) (ents0 : List Entity) (evs0 : List Event)
    (entsF : List Entity) (evsF : List Event)
    (h : cfg.foldlM (writeStep env compression lvl) (ents0, evs0) =
      Except.ok (entsF, evsF)) :
    ∃ tail, evsF = evs0 ++ tail ∧
      ∀ ev ∈ tail, ev.isCommit = false ∧ ev.isAlloc = false := by
  induction cfg generalizing ents0 evs0 with
  | nil =>
    have h' : (ents0, evs0) = (entsF, evsF) := Except.ok.inj h
    have h2 : evs0 = evsF := congrArg Prod.snd h'
    exact ⟨[], by rw [← h2, List.append_nil], by simp⟩
  | cons ccfg rest ih =>
    rcases exceptFold_cons_decomp _ _ _ _ _ h with ⟨mid, h1, h2⟩
    rcases writeStep_shape env compression lvl ccfg.1 ccfg.2 ents0 evs0
      mid.1 mid.2 (by rcases ccfg with ⟨c, cc⟩; rcases mid with ⟨m1, m2⟩; exact h1)
      with ⟨ps, _, _, hevs⟩
    rcases ih mid.1 mid.2 (by rcases mid with ⟨m1, m2⟩; exact h2)
      with ⟨tail, htail, hprops⟩
    refine ⟨Event.resolve ccfg.1 ps ::
      Event.upload ccfg.1 ccfg.2.bucket_path
        (columnUploads env compression lvl ccfg.1 ents0 ps) :: tail, ?_, ?_⟩
    · rw [htail, hevs]
      simp
    · intro ev hev
      simp only [List.mem_cons] at hev
      rcases hev with rfl | rfl | hmem
      · exact ⟨rfl, rfl⟩
      · exact ⟨rfl, rfl⟩
      · exact hprops ev hmem

theorem columnUploads_mem_of (env : Option String) (compression : String)
    (lvl : Int) (col : String) (ents : List Entity)
    (ps : List (Option String)) (i : Nat) (e : Entity) (p : String)
    (v : Value) (he : ents[i]? = some e) (hp : ps[i]? = some (some p))
    (hv : e.getAttr col = some v) :
    mkFileD env compression lvl v p ∈ columnUploads env compression lvl col ents ps := by
  unfold columnUploads
  rw [List.reduceOption_mem_iff]
  have hz := zipWith_get? (uploadOne env compression lvl col) ents ps i e (some p) he hp
  rw [uploadOne_some env compression lvl col e p v hv] at hz
  exact List.getElem?_mem hz

/-- Pointwise invariant of the column loop of `_write_columns`, starting
from an arbitrary state: positions are preserved, keys are never touched,
attributes outside the configured column names are unchanged, and every
attribute that changes at all is a configured column that is removed after
a descriptor carrying its value was put in that column's upload batch. -/
theorem write_fold_pointwise (env : Option String) (compression : String)
    (lvl : Int) (cfg : NsConfig) (ents0 : List Entity) (evs0 : List Event)
    (entsF : List Entity) (evsF : List Event)
    (h : cfg.foldlM (writeStep env compression lvl) (ents0, evs0) =
      Except.ok (entsF, evsF))
    (i : Nat) (e0 : Entity) (he : ents0[i]? = some e0) :
    ∃ eF, entsF[i]? = some eF ∧ eF.key = e0.key ∧
      ∀ a, (a ∉ cfg.map Prod.fst → eF.getAttr a = e0.getAttr a) ∧
        (eF.getAttr a = e0.getAttr a ∨
          (eF.getAttr a = none ∧ a ∈ cfg.map Prod.fst ∧
            ∃ v b fs d, e0.getAttr a = some v ∧
              Event.upload a b fs ∈ evsF ∧ d ∈ fs ∧ d.content = v)) := by
  induction cfg generalizing ents0 evs0 e0 with
  | nil =>
    have h' : (ents0, evs0) = (entsF, evsF) := Except.ok.inj h
    have h1 : ents0 = entsF := congrArg Prod.fst h'
    exact ⟨e0, h1 ▸ he, rfl, fun a => ⟨fun _ => rfl, Or.inl rfl⟩⟩
  | cons ccfg rest ih =>
    obtain ⟨c, cc⟩ := ccfg
    rcases exceptFold_cons_decomp _ _ _ _ _ h with ⟨mid, h1, h2⟩
    rcases writeStep_shape env compression lvl c cc ents0 evs0
      mid.1 mid.2 (by rcases mid with ⟨m1, m2⟩; exact h1)
      with ⟨ps, hps, hm1, hm2⟩
    rcases getFilespaths_get ents0 cc.path_elements true ps hps i e0 he
      with ⟨p?, hpi, _⟩
    have hmi : mid.1[i]? = some (stripOne c e0 p?) := by
      rw [hm1]
      exact zipWith_get? _ ents0 ps i e0 p? he hpi
    have h2' : rest.foldlM (writeStep env compression lvl) (mid.1, mid.2) =
        Except.ok (entsF, evsF) := by
      rcases mid with ⟨m1, m2⟩; exact h2
    rcases ih mid.1 mid.2 h2' _ hmi with ⟨eF, hF, hFkey, hFattrs⟩
    rcases write_fold_events env compression lvl rest mid.1 mid.2 entsF evsF h2'
      with ⟨tail, htail, _⟩
    refine ⟨eF, hF, by rw [hFkey, stripOne_key], ?_⟩
    intro a
    constructor
    · intro ha
      simp only [List.map_cons, List.mem_cons] at ha
      push_neg at ha
      rw [(hFattrs a).1 ha.2, stripOne_getAttr_ne _ _ _ _ ha.1]
    · rcases (hFattrs a).2 with heq | ⟨hnone, hmem, v, b, fs, d, hv, hup, hd, hc⟩
      · rw [heq]
        by_cases hac : a = c
        · subst hac
          cases h0 : e0.getAttr a with
          | none =>
            refine Or.inl ?_
            cases p? with
            | none => rw [stripOne_none, h0]
            | some p => rw [stripOne_some_absent _ _ _ h0, h0]
          | some v =>
            cases hp2 : p? with
            | none =>
              subst hp2
              rw [stripOne_none, h0]
              exact Or.inl rfl
            | some p =>
              subst hp2
              rw [stripOne_some_present _ _ _ _ h0, getAttr_popAttr_self]
              refine Or.inr ⟨rfl, by simp, v, cc.bucket_path,
                columnUploads env compression lvl a ents0 ps,
                mkFileD env compression lvl v p, rfl, ?_, ?_, rfl⟩
              · rw [htail, hm2]
                simp
              · exact columnUploads_mem_of env compression lvl a ents0 ps
                  i e0 p v he hpi h0
        · exact Or.inl (stripOne_getAttr_ne c e0 p? a hac)
      · exact Or.inr ⟨hnone, by simp [hmem], v, b, fs, d,
          stripOne_getAttr_some _ _ _ _ _ hv, hup, hd, hc⟩

/-! Lemmas about identifier allocation (`_allocate_ids`). -/

theorem assignIds_length (es : List Entity) (ids : List EKey) :
    (assignIds es ids).length = es.length := by
  induction es generalizing ids with
  | nil => rfl
  | cons e rest ih =>
    unfold assignIds
    by_cases hu : isUnnamed e
    · cases ids with
      | nil => simp [hu, ih]
      | cons k ks => simp [hu, ih]
    · simp [hu, ih]

theorem assignIds_pointwise (es : List Entity) (ids : List EKey) (i : Nat)
    (e0 : Entity) (he : es[i]? = some e0) :
    ∃ e1, (assignIds es ids)[i]? = some e1 ∧ e1.attrs = e0.attrs ∧
      ((pyId e0.key).isSome → e1 = e0) := by
  induction es generalizing ids i with
  | nil => simp at he
  | cons e rest ih =>
    unfold assignIds
    by_cases hu : isUnnamed e
    · cases ids with
      | nil =>
        simp only [hu, if_true]
        cases i with
        | zero =>
          simp at he
          subst he
          exact ⟨e, by simp, rfl, fun _ => rfl⟩
        | succ j =>
          simp only [List.getElem?_cons_succ] at he ⊢
          exact ih [] j he
      | cons k ks =>
        simp only [hu, if_true]
        cases i with
        | zero =>
          simp at he
          subst he
          refine ⟨{ e with key := k }, by simp, rfl, fun hs => ?_⟩
          exfalso
          unfold isUnnamed at hu
          rw [Option.isNone_iff_eq_none] at hu
          rw [hu] at hs
          simp at hs
        | succ j =>
          simp only [List.getElem?_cons_succ] at he ⊢
          exact ih ks j he
    · simp only [hu, Bool.false_eq_true, if_false]
      cases i with
      | zero =>
        simp at he
        subst he
        exact ⟨e, by simp, rfl, fun _ => rfl⟩
      | succ j =>
        simp only [List.getElem?_cons_succ] at he ⊢
        exact ih ids j he

/-- Positions of the entities Python's `entity.key.id is None` test selects,
in submission order. -/
def unnamedIdxs : List Entity → List Nat
  | [] => []
  | e :: rest =>
    if isUnnamed e then 0 :: (unnamedIdxs rest).map (· + 1)
    else (unnamedIdxs rest).map (· + 1)

theorem unnamedIdxs_length (es : List Entity) :
    (unnamedIdxs es).length = (es.filter isUnnamed).length := by
  induction es with
  | nil => rfl
  | cons e rest ih =>
    unfold unnamedIdxs
    by_cases hu : isUnnamed e <;> simp [hu, List.filter_cons, ih]

theorem assignIds_at_unnamed (es : List Entity) (ids : List EKey)
    (j k : Nat) (kk : EKey)
    (hj : (unnamedIdxs es)[j]? = some k) (hid : ids[j]? = some kk) :
    ∃ e0, es[k]? = some e0 ∧
      (assignIds es ids)[k]? = some { e0 with key := kk } := by
  induction es generalizing ids j k with
  | nil => simp [unnamedIdxs] at hj
  | cons e rest ih =>
    unfold unnamedIdxs at hj
    unfold assignIds
    by_cases hu : isUnnamed e
    · rw [if_pos hu] at hj
      rw [if_pos hu]
      cases j with
      | zero =>
        simp at hj
        subst hj
        cases ids with
        | nil => simp at hid
        | cons k0 ks =>
          simp at hid
          subst hid
          exact ⟨e, by simp, by simp⟩
      | succ j' =>
        simp only [List.getElem?_cons_succ] at hj
        rw [List.getElem?_map] at hj
        cases hj' : (unnamedIdxs rest)[j']? with
        | none => rw [hj'] at hj; exact Option.noConfusion hj
        | some k' =>
          rw [hj'] at hj
          have hk : k = k' + 1 := (Option.some.inj hj).symm
          subst hk
          cases ids with
          | nil => simp at hid
          | cons k0 ks =>
            simp only [List.getElem?_cons_succ] at hid
            rcases ih ks j' k' hj' hid with ⟨e0, he0, ha⟩
            exact ⟨e0, by simpa using he0, by simpa using ha⟩
    · rw [if_neg hu] at hj
      rw [if_neg hu]
      rw [List.getElem?_map] at hj
      cases hj' : (unnamedIdxs rest)[j]? with
      | none => rw [hj'] at hj; exact Option.noConfusion hj
      | some k' =>
        rw [hj'] at hj
        have hk : k = k' + 1 := (Option.some.inj hj).symm
        subst hk
        rcases ih ids j k' hj' hid with ⟨e0, he0, ha⟩
        exact ⟨e0, by simpa using he0, by simpa using ha⟩

theorem allocateIds_length (alloc : EKey → Nat → List EKey)
    (es : List Entity) : (allocateIds alloc es).length = es.length := by
  unfold allocateIds
  cases es.filter isUnnamed with
  | nil => rfl
  | cons u0 us => exact assignIds_length es _

theorem allocateIds_pointwise (alloc : EKey → Nat → List EKey)
    (es : List Entity) (i : Nat) (e0 : Entity) (he : es[i]? = some e0) :
    ∃ e1, (allocateIds alloc es)[i]? = some e1 ∧ e1.attrs = e0.attrs ∧
      ((pyId e0.key).isSome → e1 = e0) := by
  unfold allocateIds
  cases es.filter isUnnamed with
  | nil => exact ⟨e0, he, rfl, fun _ => rfl⟩
  | cons u0 us => exact assignIds_pointwise es _ i e0 he

theorem getAttr_eq_of_attrs_eq (e1 e0 : Entity) (h : e1.attrs = e0.attrs)
    (a : String) : e1.getAttr a = e0.getAttr a := by
  unfold Entity.getAttr
  rw [h]

theorem allocEvents_all_alloc (es : List Entity) :
    ∀ ev ∈ allocEvents es, ev.isAlloc = true ∧ ev.isResolve = false ∧
      ev.isCommit = false := by
  unfold allocEvents
  cases es.filter isUnnamed with
  | nil => simp
  | cons u0 us =>
    intro ev hev
    simp only [List.mem_singleton] at hev
    subst hev
    exact ⟨rfl, rfl, rfl⟩

theorem write_fold_length (env : Option String) (compression : String)
    (lvl : Int) (cfg : NsConfig) (ents0 : List Entity) (evs0 : List Event)
    (entsF : List Entity) (evsF : List Event)
    (h : cfg.foldlM (writeStep env compression lvl) (ents0, evs0) =
      Except.ok (entsF, evsF)) :
    entsF.length = ents0.length := by
  induction cfg generalizing ents0 evs0 with
  | nil =>
    have h' : (ents0, evs0) = (entsF, evsF) := Except.ok.inj h
    have h1 : ents0 = entsF := congrArg Prod.fst h'
    rw [h1]
  | cons ccfg rest ih =>
    obtain ⟨c, cc⟩ := ccfg
    rcases exceptFold_cons_decomp _ _ _ _ _ h with ⟨mid, h1, h2⟩
    rcases writeStep_shape env compression lvl c cc ents0 evs0
      mid.1 mid.2 (by rcases mid with ⟨m1, m2⟩; exact h1)
      with ⟨ps, hps, hm1, _⟩
    have h2' : rest.foldlM (writeStep env compression lvl) (mid.1, mid.2) =
        Except.ok (entsF, evsF) := by
      rcases mid with ⟨m1, m2⟩; exact h2
    have hlen : mid.1.length = ents0.length := by
      rw [hm1]
      unfold columnStrip
      rw [List.length_zipWith, getFilespaths_length ents0 cc.path_elements true ps hps]
      exact Nat.min_self _
    rw [ih mid.1 mid.2 h2', hlen]

theorem put_multi_shape (alloc : EKey → Nat → List EKey) (env : Option String)
    (compression : String) (lvl : Int) (nsCfg : NsConfig)
    (entities ents' : List Entity) (trace : List Event)
    (h : put_multi alloc env compression lvl nsCfg entities =
      Except.ok (ents', trace)) :
    ∃ evs, write_columns alloc env compression lvl nsCfg entities =
        Except.ok (ents', evs) ∧
      trace = evs ++ [Event.commit ents'] := by
  unfold put_multi at h
  cases h1 : write_columns alloc env compression lvl nsCfg entities with
  | error e => rw [h1] at h; exact Except.noConfusion h
  | ok r =>
    rw [h1] at h
    have h' : (r.1, r.2 ++ [Event.commit r.1]) = (ents', trace) := Except.ok.inj h
    have he : r.1 = ents' := congrArg Prod.fst h'
    have ht : r.2 ++ [Event.commit r.1] = trace := congrArg Prod.snd h'
    refine ⟨r.2, ?_, ?_⟩
    · rw [← he]
    · rw [← ht, he]

/-- C5: on the write path, the key is whatever allocation assigned and every
attribute change is a removal of a configured column name; a configured
column is removed from an entity only when a descriptor carrying that
entity's value for it was put in that column's upload batch; attributes
outside the active NamespaceConfig are unchanged (and an entity missing a
configured column's value keeps all its attributes for it, silently). -/
theorem write_selective_offload
    (alloc : EKey → Nat → List EKey) (env : Option String)
    (compression : String) (lvl : Int) (nsCfg : NsConfig)
    (entities ents' : List Entity) (trace : List Event)
    (h : put_multi alloc env compression lvl nsCfg entities =
      Except.ok (ents', trace))
    (i : Nat) (e0 : Entity) (he : entities[i]? = some e0) :
    ∃ eA eF, (allocateIds alloc entities)[i]? = some eA ∧
      eA.attrs = e0.attrs ∧ ents'[i]? = some eF ∧ eF.key = eA.key ∧
      (∀ a, a ∉ nsCfg.map Prod.fst → eF.getAttr a = e0.getAttr a) ∧
      (∀ a, eF.getAttr a ≠ e0.getAttr a →
        a ∈ nsCfg.map Prod.fst ∧ eF.getAttr a = none ∧
        ∃ v b fs d, e0.getAttr a = some v ∧ Event.upload a b fs ∈ trace ∧
          d ∈ fs ∧ d.content = v) := by
  rcases put_multi_shape alloc env compression lvl nsCfg entities ents' trace h
    with ⟨evs, hw, htr⟩
  rcases allocateIds_pointwise alloc entities i e0 he with ⟨eA, hA, hAattrs, _⟩
  have hwfold : nsCfg.foldlM (writeStep env compression lvl)
      (allocateIds alloc entities, allocEvents entities) =
      Except.ok (ents', evs) := hw
  rcases write_fold_pointwise env compression lvl nsCfg _ _ _ _ hwfold i eA hA
    with ⟨eF, hF, hFkey, hFattrs⟩
  refine ⟨eA, eF, hA, hAattrs, hF, hFkey, ?_, ?_⟩
  · intro a ha
    rw [(hFattrs a).1 ha]
    exact getAttr_eq_of_attrs_eq eA e0 hAattrs a
  · intro a hne
    have hea : eA.getAttr a = e0.getAttr a :=
      getAttr_eq_of_attrs_eq eA e0 hAattrs a
    rcases (hFattrs a).2 with heq | ⟨hnone, hmem, v, b, fs, d, hv, hup, hd, hc⟩
    · exact absurd (heq.trans hea) hne
    · refine ⟨hmem, hnone, v, b, fs, d, hea ▸ hv, ?_, hd, hc⟩
      rw [htr]
      exact List.mem_append.mpr (Or.inl hup)

/-- Allocation oracle for the write-path witnesses: fresh numeric ids from
42. -/
def allocW : EKey → Nat → List EKey := fun b n =>
  (List.range n).map (fun j => { kind := b.kind, id := some (KeyId.kId (42 + (j : Int))) })

/-- The spec's worked example column config. -/
def ccW : ColumnConfig := { bucket_path := "b://data", path_elements := ["kind_tag"] }

/-- The spec's worked example configuration. -/
def cfgW : NsConfig := [("blob", ccW)]

/-- The spec's worked example entity: no identifier, `kind_tag = "x"`,
offloaded column `blob = "HELLO"`. -/
def entW : Entity :=
  { key := { kind := "k", id := none }
    attrs := [("kind_tag", Value.vStr "x"), ("blob", Value.vStr "HELLO")] }

/-- The committed batch of the worked example: id `42` assigned, `blob`
stripped. -/
def c5Ents : List Entity :=
  [{ key := { kind := "k", id := some (KeyId.kId 42) }
     attrs := [("kind_tag", Value.vStr "x")] }]

/-- The event trace of the worked example write. -/
def c5Trace : List Event :=
  [Event.alloc { kind := "k", id := none } 1,
   Event.resolve "blob" [some "x/42"],
   Event.upload "blob" "b://data"
     [{ content := Value.vStr "HELLO", path := "x/42", compress := "gzip",
        compression_level := 6, cache_control := "public; max-age=3600" }],
   Event.commit c5Ents]

/-- Witness for C5 on the spec's worked example. -/
theorem c5_witness :
    ∃ eA eF, (allocateIds allocW [entW])[0]? = some eA ∧
      eA.attrs = entW.attrs ∧ c5Ents[0]? = some eF ∧ eF.key = eA.key ∧
      (∀ a, a ∉ cfgW.map Prod.fst → eF.getAttr a = entW.getAttr a) ∧
      (∀ a, eF.getAttr a ≠ entW.getAttr a →
        a ∈ cfgW.map Prod.fst ∧ eF.getAttr a = none ∧
        ∃ v b fs d, entW.getAttr a = some v ∧ Event.upload a b fs ∈ c5Trace ∧
          d ∈ fs ∧ d.content = v) :=
  write_selective_offload allocW none "gzip" 6 cfgW [entW] c5Ents c5Trace
    rfl 0 entW rfl

/-- C4: an entity lacking one of a configured column's path-element
attributes contributes no descriptor to that column's upload batch (its
write-mode path is `None`, and every uploaded descriptor comes from a
different position), its column attribute is not removed, and it reaches
the metadata-store commit with that column's value intact; the upload for
the column and the commit of the whole batch still happen. -/
theorem write_missing_path_element
    (alloc : EKey → Nat → List EKey) (env : Option String)
    (compression : String) (lvl : Int) (pre post : NsConfig)
    (col : String) (cc : ColumnConfig) (entities ents' : List Entity)
    (trace : List Event)
    (hnd : ((pre ++ (col, cc) :: post).map Prod.fst).Nodup)
    (h : put_multi alloc env compression lvl (pre ++ (col, cc) :: post)
      entities = Except.ok (ents', trace))
    (i : Nat) (e0 : Entity) (he : entities[i]? = some e0)
    (pe : String) (hpe : pe ∈ cc.path_elements)
    (hmiss : e0.getAttr pe = none) :
    ∃ eF, ents'[i]? = some eF ∧ eF.getAttr col = e0.getAttr col ∧
      Event.commit ents' ∈ trace ∧
      ∃ stageEnts stageEvs ps,
        pre.foldlM (writeStep env compression lvl)
          (allocateIds alloc entities, allocEvents entities) =
          Except.ok (stageEnts, stageEvs) ∧
        getFilespaths stageEnts cc.path_elements true = Except.ok ps ∧
        ps[i]? = some none ∧
        Event.upload col cc.bucket_path
          (columnUploads env compression lvl col stageEnts ps) ∈ trace ∧
        ∀ d ∈ columnUploads env compression lvl col stageEnts ps,
          ∃ j, j ≠ i ∧ ∃ ej pj, stageEnts[j]? = some ej ∧
            ps[j]? = some (some pj) ∧ d.path = pj ∧
            ej.getAttr col = some d.content := by
  have hcol : col ∉ pre.map Prod.fst ∧ col ∉ post.map Prod.fst := by
    have : ((pre.map Prod.fst) ++ col :: (post.map Prod.fst)).Nodup := by
      simpa using hnd
    exact nodup_middle_not_mem _ _ _ this
  rcases put_multi_shape alloc env compression lvl _ entities ents' trace h
    with ⟨evs, hw, htr⟩
  have hwfold : (pre ++ (col, cc) :: post).foldlM (writeStep env compression lvl)
      (allocateIds alloc entities, allocEvents entities) =
      Except.ok (ents', evs) := hw
  rcases exceptFold_decomp _ pre ((col, cc) :: post) _ _ hwfold
    with ⟨stage, hpre, hrest⟩
  rcases exceptFold_cons_decomp _ _ _ _ _ hrest with ⟨mid, hstep, hpost⟩
  rcases writeStep_shape env compression lvl col cc stage.1 stage.2 mid.1 mid.2
    (by rcases stage with ⟨s1, s2⟩; rcases mid with ⟨m1, m2⟩; exact hstep)
    with ⟨ps, hps, hm1, hm2⟩
  have hpre' : pre.foldlM (writeStep env compression lvl)
      (allocateIds alloc entities, allocEvents entities) =
      Except.ok (stage.1, stage.2) := by
    rcases stage with ⟨s1, s2⟩; exact hpre
  rcases allocateIds_pointwise alloc entities i e0 he with ⟨eA, hA, hAattrs, _⟩
  rcases write_fold_pointwise env compression lvl pre _ _ _ _ hpre' i eA hA
    with ⟨eS, hSi, hSkey, hSattrs⟩
  have heApe : eA.getAttr pe = none := by
    rw [getAttr_eq_of_attrs_eq eA e0 hAattrs pe]
    exact hmiss
  have heSpe : eS.getAttr pe = none := by
    rcases (hSattrs pe).2 with heq | ⟨hnone, _⟩
    · rw [heq, heApe]
    · exact hnone
  have heScol : eS.getAttr col = e0.getAttr col := by
    rw [(hSattrs col).1 hcol.1]
    exact getAttr_eq_of_attrs_eq eA e0 hAattrs col
  rcases getFilespaths_get stage.1 cc.path_elements true ps hps i eS hSi
    with ⟨p?, hpi, hfp⟩
  have hpnone : p? = none :=
    Except.ok.inj (hfp.symm.trans (filePathOf_write_missing eS cc.path_elements
      ⟨pe, hpe, heSpe⟩))
  subst hpnone
  have hmi : mid.1[i]? = some eS := by
    rw [hm1]
    have := zipWith_get? (stripOne col) stage.1 ps i eS none hSi hpi
    rwa [stripOne_none] at this
  have hpost' : post.foldlM (writeStep env compression lvl) (mid.1, mid.2) =
      Except.ok (ents', evs) := by
    rcases mid with ⟨m1, m2⟩; exact hpost
  rcases write_fold_pointwise env compression lvl post _ _ _ _ hpost' i eS hmi
    with ⟨eF, hFi, hFkey, hFattrs⟩
  have heFcol : eF.getAttr col = e0.getAttr col := by
    rw [(hFattrs col).1 hcol.2, heScol]
  refine ⟨eF, hFi, heFcol, by rw [htr]; simp, stage.1, stage.2, ps, hpre', hps,
    hpi, ?_, ?_⟩
  · rcases write_fold_events env compression lvl post _ _ _ _ hpost'
      with ⟨tail, htail, _⟩
    rw [htr, htail, hm2]
    simp
  · intro d hd
    unfold columnUploads at hd
    rw [List.reduceOption_mem_iff] at hd
    rcases zipWith_mem _ _ _ _ hd with ⟨j, ej, pj?, hej, hpj, hfd⟩
    cases pj? with
    | none => exact absurd hfd (by rw [uploadOne_none]; exact fun hh => Option.noConfusion hh)
    | some pj =>
      cases hv : ej.getAttr col with
      | none =>
        exfalso
        unfold uploadOne at hfd
        rw [hv] at hfd
        exact Option.noConfusion hfd
      | some v =>
        rw [uploadOne_some env compression lvl col ej pj v hv] at hfd
        have hdv : mkFileD env compression lvl v pj = d := Option.some.inj hfd
        have hji : j ≠ i := by
          intro hj
          subst hj
          rw [hpj] at hpi
          exact Option.noConfusion (Option.some.inj hpi)
        refine ⟨j, hji, ej, pj, hej, hpj, ?_, ?_⟩
        · rw [← hdv]
          rfl
        · rw [← hdv]
          exact hv

/-- Entity for the C4 witness: it has an identifier and the offloaded
column value `"B"`, but lacks the path element `kind_tag`. -/
def entY : Entity :=
  { key := { kind := "k", id := some (KeyId.kId 7) }
    attrs := [("blob", Value.vStr "B")] }

/-- The event trace of writing `entY`: an empty upload batch and a commit
with the `blob` value intact. -/
def c4Trace : List Event :=
  [Event.resolve "blob" [none],
   Event.upload "blob" "b://data" [],
   Event.commit [entY]]

/-- Witness for C4 at a concrete input. -/
theorem c4_witness :
    ∃ eF, [entY][0]? = some eF ∧ eF.getAttr "blob" = entY.getAttr "blob" ∧
      Event.commit [entY] ∈ c4Trace ∧
      ∃ stageEnts stageEvs ps,
        ([] : NsConfig).foldlM (writeStep none "gzip" 6)
          (allocateIds allocW [entY], allocEvents [entY]) =
          Except.ok (stageEnts, stageEvs) ∧
        getFilespaths stageEnts ccW.path_elements true = Except.ok ps ∧
        ps[0]? = some none ∧
        Event.upload "blob" ccW.bucket_path
          (columnUploads none "gzip" 6 "blob" stageEnts ps) ∈ c4Trace ∧
        ∀ d ∈ columnUploads none "gzip" 6 "blob" stageEnts ps,
          ∃ j, j ≠ 0 ∧ ∃ ej pj, stageEnts[j]? = some ej ∧
            ps[j]? = some (some pj) ∧ d.path = pj ∧
            ej.getAttr "blob" = some d.content :=
  write_missing_path_element allocW none "gzip" 6 [] [] "blob" ccW
    [entY] [entY] c4Trace (by decide) rfl 0 entY rfl "kind_tag"
    (by decide) rfl

/-- C1: `put` is `put_multi` on the singleton batch; on every successful
`put_multi` the trace is a write phase followed by the single metadata-store
commit (no commit occurs inside the phase), the committed batch is exactly
the output of `_write_columns`, every allocation event precedes every path
resolution event, the committed keys are the post-allocation keys, and for
every configured column every entity for which a descriptor was built
(write path present and attribute present at that column's stage) reaches
the commit without that column's payload. -/
theorem putMulti_offload_before_commit
    (alloc : EKey → Nat → List EKey) (env : Option String)
    (compression : String) (lvl : Int) (nsCfg : NsConfig)
    (entities ents' : List Entity) (trace : List Event)
    (h : put_multi alloc env compression lvl nsCfg entities =
      Except.ok (ents', trace)) :
    (∀ e, put alloc env compression lvl nsCfg e =
      put_multi alloc env compression lvl nsCfg [e]) ∧
    ∃ phase, trace = phase ++ [Event.commit ents'] ∧
      write_columns alloc env compression lvl nsCfg entities =
        Except.ok (ents', phase) ∧
      (∀ ev ∈ phase, ev.isCommit = false) ∧
      (∀ (j1 j2 : Nat) (ev1 ev2 : Event), phase[j1]? = some ev1 →
        ev1.isAlloc = true →
        phase[j2]? = some ev2 → ev2.isResolve = true → j1 < j2) ∧
      ents'.map Entity.key = (allocateIds alloc entities).map Entity.key ∧
      (∀ pre col cc post, nsCfg = pre ++ (col, cc) :: post →
        (nsCfg.map Prod.fst).Nodup →
        ∃ stageEnts stageEvs ps,
          pre.foldlM (writeStep env compression lvl)
            (allocateIds alloc entities, allocEvents entities) =
            Except.ok (stageEnts, stageEvs) ∧
          getFilespaths stageEnts cc.path_elements true = Except.ok ps ∧
          Event.upload col cc.bucket_path
            (columnUploads env compression lvl col stageEnts ps) ∈ phase ∧
          ∀ (i : Nat) (eS : Entity) (p : String) (v : Value),
            stageEnts[i]? = some eS → ps[i]? = some (some p) →
            eS.getAttr col = some v →
            ∃ eF, ents'[i]? = some eF ∧ eF.getAttr col = none) := by
  rcases put_multi_shape alloc env compression lvl nsCfg entities ents' trace h
    with ⟨phase, hw, htr⟩
  have hwfold : nsCfg.foldlM (writeStep env compression lvl)
      (allocateIds alloc entities, allocEvents entities) =
      Except.ok (ents', phase) := hw
  rcases write_fold_events env compression lvl nsCfg _ _ _ _ hwfold
    with ⟨tail, htail, htailprops⟩
  refine ⟨fun e => rfl, phase, htr, hw, ?_, ?_, ?_, ?_⟩
  · intro ev hev
    rw [htail] at hev
    rcases List.mem_append.mp hev with hl | hr
    · exact (allocEvents_all_alloc entities ev hl).2.2
    · exact (htailprops ev hr).1
  · intro j1 j2 ev1 ev2 h1 ha1 h2 hr2
    have hj1 : j1 < (allocEvents entities).length := by
      by_contra hge
      push_neg at hge
      rw [htail, List.getElem?_append_right hge] at h1
      have := (htailprops ev1 (List.getElem?_mem h1)).2
      rw [ha1] at this
      exact Bool.noConfusion this
    have hj2 : (allocEvents entities).length ≤ j2 := by
      by_contra hlt
      push_neg at hlt
      rw [htail, List.getElem?_append, if_pos hlt] at h2
      have := (allocEvents_all_alloc entities ev2 (List.getElem?_mem h2)).2.1
      rw [hr2] at this
      exact Bool.noConfusion this
    exact Nat.lt_of_lt_of_le hj1 hj2
  · have hlen : ents'.length = (allocateIds alloc entities).length :=
      write_fold_length env compression lvl nsCfg _ _ _ _ hwfold
    apply List.ext_getElem?
    intro i
    rw [List.getElem?_map, List.getElem?_map]
    cases hA : (allocateIds alloc entities)[i]? with
    | none =>
      have hilen : (allocateIds alloc entities).length ≤ i := by
        by_contra hlt
        push_neg at hlt
        rw [List.getElem?_eq_getElem hlt] at hA
        exact Option.noConfusion hA
      have : ents'[i]? = none := List.getElem?_eq_none (hlen ▸ hilen)
      rw [this]
    | some eA =>
      rcases write_fold_pointwise env compression lvl nsCfg _ _ _ _ hwfold i eA hA
        with ⟨eF, hF, hFkey, _⟩
      rw [hF]
      simp [hFkey]
  · intro pre col cc post hcfg hnd
    subst hcfg
    have hcol : col ∉ pre.map Prod.fst ∧ col ∉ post.map Prod.fst := by
      have : ((pre.map Prod.fst) ++ col :: (post.map Prod.fst)).Nodup := by
        simpa using hnd
      exact nodup_middle_not_mem _ _ _ this
    rcases exceptFold_decomp _ pre ((col, cc) :: post) _ _ hwfold
      with ⟨stage, hpre, hrest⟩
    rcases exceptFold_cons_decomp _ _ _ _ _ hrest with ⟨mid, hstep, hpost⟩
    rcases writeStep_shape env compression lvl col cc stage.1 stage.2 mid.1 mid.2
      (by rcases stage with ⟨s1, s2⟩; rcases mid with ⟨m1, m2⟩; exact hstep)
      with ⟨ps, hps, hm1, hm2⟩
    have hpre' : pre.foldlM (writeStep env compression lvl)
        (allocateIds alloc entities, allocEvents entities) =
        Except.ok (stage.1, stage.2) := by
      rcases stage with ⟨s1, s2⟩; exact hpre
    have hpost' : post.foldlM (writeStep env compression lvl) (mid.1, mid.2) =
        Except.ok (ents', phase) := by
      rcases mid with ⟨m1, m2⟩; exact hpost
    refine ⟨stage.1, stage.2, ps, hpre', hps, ?_, ?_⟩
    · rcases write_fold_events env compression lvl post _ _ _ _ hpost'
        with ⟨tail2, htail2, _⟩
      rw [htail2, hm2]
      simp
    · intro i eS p v hSi hpi hSv
      have hmi : mid.1[i]? = some (eS.popAttr col) := by
        rw [hm1]
        have := zipWith_get? (stripOne col) stage.1 ps i eS (some p) hSi hpi
        rwa [stripOne_some_present col eS p v hSv] at this
      rcases write_fold_pointwise env compression lvl post _ _ _ _ hpost' i _ hmi
        with ⟨eF, hFi, _, hFattrs⟩
      refine ⟨eF, hFi, ?_⟩
      rcases (hFattrs col).2 with heq | ⟨hnone, _⟩
      · rw [heq]
        exact getAttr_popAttr_self eS col
      · exact hnone

/-- Witness for C1 on the spec's worked example write. -/
theorem c1_witness :
    (∀ e, put allocW none "gzip" 6 cfgW e =
      put_multi allocW none "gzip" 6 cfgW [e]) ∧
    ∃ phase, c5Trace = phase ++ [Event.commit c5Ents] ∧
      write_columns allocW none "gzip" 6 cfgW [entW] =
        Except.ok (c5Ents, phase) ∧
      (∀ ev ∈ phase, ev.isCommit = false) ∧
      (∀ (j1 j2 : Nat) (ev1 ev2 : Event), phase[j1]? = some ev1 →
        ev1.isAlloc = true →
        phase[j2]? = some ev2 → ev2.isResolve = true → j1 < j2) ∧
      c5Ents.map Entity.key = (allocateIds allocW [entW]).map Entity.key ∧
      (∀ pre col cc post, cfgW = pre ++ (col, cc) :: post →
        (cfgW.map Prod.fst).Nodup →
        ∃ stageEnts stageEvs ps,
          pre.foldlM (writeStep none "gzip" 6)
            (allocateIds allocW [entW], allocEvents [entW]) =
            Except.ok (stageEnts, stageEvs) ∧
          getFilespaths stageEnts cc.path_elements true = Except.ok ps ∧
          Event.upload col cc.bucket_path
            (columnUploads none "gzip" 6 col stageEnts ps) ∈ phase ∧
          ∀ (i : Nat) (eS : Entity) (p : String) (v : Value),
            stageEnts[i]? = some eS → ps[i]? = some (some p) →
            eS.getAttr col = some v →
            ∃ eF, c5Ents[i]? = some eF ∧ eF.getAttr col = none) :=
  putMulti_offload_before_commit allocW none "gzip" 6 cfgW [entW]
    c5Ents c5Trace rfl

/-- An entity with a concrete caller-assigned name identifier. -/
def eNamed : Entity :=
  { key := { kind := "k", id := some (KeyId.kName "myname") }, attrs := [] }

/-- C6 counterexample: the code partitions on Python `key.id is None`, which
is `None` for a key with a *name*; the entity `eNamed` has a concrete
(name) identifier, yet `_allocate_ids` requests an identifier for it and
overwrites its key with the allocated one, so "entities with an identifier
keep their keys unchanged" fails as stated. -/
theorem c6_counterexample :
    (allocateIds allocW [eNamed]).map Entity.key ≠ [eNamed.key] ∧
    (allocateIds allocW [eNamed]).map Entity.key =
      [{ kind := "k", id := some (KeyId.kId 42) }] ∧
    allocEvents [eNamed] = [Event.alloc eNamed.key 1] := by
  refine ⟨?_, rfl, rfl⟩
  intro hcontra
  have h : (allocateIds allocW [eNamed]).map Entity.key =
      [{ kind := "k", id := some (KeyId.kId 42) }] := rfl
  rw [h] at hcontra
  exact absurd hcontra (by decide)

/-- C6 (amended): the write batch is partitioned on the presence of a
*numeric* store identifier (Python `key.id`); entities with a numeric id
keep their keys and all entities keep their attributes; when no entity
lacks a numeric id nothing is requested; otherwise exactly as many
identifiers as there are such entities are requested in one call using the
first one's key as the allocation basis, and the returned keys are assigned
back to those entities in submission order (so distinct returned
identifiers land on distinct entities, and entities with a *name*
identifier are also reassigned). -/
theorem c6_allocate_ids (alloc : EKey → Nat → List EKey)
    (entities : List Entity) :
    (allocateIds alloc entities).length = entities.length ∧
    (∀ (i : Nat) (e0 : Entity), entities[i]? = some e0 → ∃ e1,
      (allocateIds alloc entities)[i]? = some e1 ∧ e1.attrs = e0.attrs ∧
      ((pyId e0.key).isSome → e1 = e0)) ∧
    (entities.filter isUnnamed = [] →
      allocateIds alloc entities = entities ∧ allocEvents entities = []) ∧
    (∀ u0 us, entities.filter isUnnamed = u0 :: us →
      allocEvents entities = [Event.alloc u0.key (u0 :: us).length] ∧
      ∀ (j k : Nat) (kk : EKey), (unnamedIdxs entities)[j]? = some k →
        (alloc u0.key (u0 :: us).length)[j]? = some kk →
        ∃ e0, entities[k]? = some e0 ∧
          (allocateIds alloc entities)[k]? = some { e0 with key := kk }) := by
  refine ⟨allocateIds_length alloc entities,
    fun i e0 he => allocateIds_pointwise alloc entities i e0 he, ?_, ?_⟩
  · intro hf
    unfold allocateIds allocEvents
    rw [hf]
    exact ⟨rfl, rfl⟩
  · intro u0 us hf
    constructor
    · unfold allocEvents
      rw [hf]
    · intro j k kk hj hid
      have : allocateIds alloc entities =
          assignIds entities (alloc u0.key (u0 :: us).length) := by
        unfold allocateIds
        rw [hf]
      rw [this]
      exact assignIds_at_unnamed entities _ j k kk hj hid

/-- Entities for the C6 witness: one with a numeric id, one without. -/
def eWithId : Entity :=
  { key := { kind := "k", id := some (KeyId.kId 7) }, attrs := [("a", Value.vStr "s")] }

def ePartial : Entity := { key := { kind := "k", id := none }, attrs := [] }

/-- Witness for C6 at a concrete batch: the entity with numeric id 7 keeps
its key, the partial entity is assigned the allocated key with id 42 via
the single allocation request based on its own key. -/
theorem c6_witness :
    (allocateIds allocW [eWithId, ePartial]).length = 2 ∧
    (∃ e1, (allocateIds allocW [eWithId, ePartial])[0]? = some e1 ∧
      e1.attrs = eWithId.attrs ∧ ((pyId eWithId.key).isSome → e1 = eWithId)) ∧
    allocEvents [eWithId, ePartial] = [Event.alloc ePartial.key 1] ∧
    (∃ e0, [eWithId, ePartial][1]? = some e0 ∧
      (allocateIds allocW [eWithId, ePartial])[1]? =
        some { e0 with key := { kind := "k", id := some (KeyId.kId 42) } }) := by
  have h := c6_allocate_ids allocW [eWithId, ePartial]
  refine ⟨h.1, h.2.1 0 eWithId rfl, (h.2.2.2 ePartial [] rfl).1, ?_⟩
  exact (h.2.2.2 ePartial [] rfl).2 0 1 { kind := "k", id := some (KeyId.kId 42) }
    rfl rfl

/-! Lemmas about the config cache (`config` property, `_read_config`,
`add_config`). -/

theorem storeGet_storePut_self (store : List (EKey × Entity)) (e : Entity) :
    storeGet (storePut store e) e.key = some e := by
  induction store with
  | nil => simp [storePut, storeGet]
  | cons q rest ih =>
    by_cases hq : q.1 = e.key
    · simp [storePut, storeGet, hq]
    · simp [storePut, storeGet, hq, ih]

theorem configProperty_cached (jl : String → Except String NsConfig)
    (st : ClientState) (d : CfgDict) (hd : st.cachedConfig = some d) :
    configProperty jl st = (Except.ok d, st) := by
  unfold configProperty
  rw [hd]

theorem configProperty_missing (jl : String → Except String NsConfig)
    (st : ClientState) (hc : st.cachedConfig = none)
    (hs : storeGet st.store (configKeyOf st.ns) = none) :
    configProperty jl st = (Except.ok [("column", [])],
      { st with cachedConfig := some [("column", [])] }) := by
  unfold configProperty
  rw [hc, hs]

theorem configProperty_decoded (jl : String → Except String NsConfig)
    (st : ClientState) (ent : Entity) (s : String) (d : NsConfig)
    (hc : st.cachedConfig = none)
    (hs : storeGet st.store (configKeyOf st.ns) = some ent)
    (hv : ent.getAttr "value" = some (Value.vStr s))
    (hj : jl s = Except.ok d) :
    configProperty jl st = (Except.ok [("column", d)],
      { st with cachedConfig := some [("column", d)] }) := by
  unfold configProperty
  simp only [hc, hs, hv, hj]

theorem configProperty_decode_error (jl : String → Except String NsConfig)
    (st : ClientState) (ent : Entity) (s : String) (msg : String)
    (hc : st.cachedConfig = none)
    (hs : storeGet st.store (configKeyOf st.ns) = some ent)
    (hv : ent.getAttr "value" = some (Value.vStr s))
    (hj : jl s = Except.error msg) :
    configProperty jl st = (Except.error msg,
      { st with cachedConfig := some [] }) := by
  unfold configProperty
  simp only [hc, hs, hv, hj]

/-- C8: the first access to the `config` property fetches and decodes the
NamespaceConfig from the metadata store and caches it; every subsequent
access returns the cached value with no re-fetch (the result is the same
for any store contents and any JSON decoder); if no config record exists,
the access yields an empty column mapping instead of failing. -/
theorem config_lazy_cache (jl : String → Except String NsConfig)
    (st : ClientState) :
    (∀ d, st.cachedConfig = some d →
      ∀ (jl' : String → Except String NsConfig)
        (store' : List (EKey × Entity)),
        configProperty jl' { st with store := store' } =
          (Except.ok d, { st with store := store' })) ∧
    (st.cachedConfig = none → storeGet st.store (configKeyOf st.ns) = none →
      configProperty jl st = (Except.ok [("column", [])],
        { st with cachedConfig := some [("column", [])] })) ∧
    (∀ ent s d, st.cachedConfig = none →
      storeGet st.store (configKeyOf st.ns) = some ent →
      ent.getAttr "value" = some (Value.vStr s) → jl s = Except.ok d →
      configProperty jl st = (Except.ok [("column", d)],
        { st with cachedConfig := some [("column", d)] })) := by
  refine ⟨?_, ?_, ?_⟩
  · intro d hd jl' store'
    exact configProperty_cached jl' _ d hd
  · exact configProperty_missing jl st
  · intro ent s d hc hs hv hj
    exact configProperty_decoded jl st ent s d hc hs hv hj

/-- JSON oracle for the config witnesses: only `"J"` decodes, to `cfgW`. -/
def jlW : String → Except String NsConfig := fun s =>
  if s = "J" then Except.ok cfgW else Except.error "bad json"

/-- The stored config record of the witnesses. -/
def cfgEntW : Entity :=
  { key := configKeyOf "nsp", attrs := [("value", Value.vStr "J")] }

/-- Facade state of the witnesses: nothing cached, config record present. -/
def stW : ClientState :=
  { ns := "nsp", cachedConfig := none, store := [(configKeyOf "nsp", cfgEntW)] }

/-- Witness for C8: the first access decodes and caches `cfgW`; a second
access on the cached state returns it even with an emptied store and a
failing decoder. -/
theorem c8_witness :
    configProperty jlW stW = (Except.ok [("column", cfgW)],
      { stW with cachedConfig := some [("column", cfgW)] }) ∧
    configProperty (fun _ => Except.error "ignored")
      { stW with cachedConfig := some [("column", cfgW)], store := [] } =
      (Except.ok [("column", cfgW)],
       { stW with cachedConfig := some [("column", cfgW)], store := [] }) := by
  constructor
  · exact (config_lazy_cache jlW stW).2.2 cfgEntW "J" cfgW rfl rfl rfl rfl
  · exact (config_lazy_cache jlW
      { stW with cachedConfig := some [("column", cfgW)] }).1
      [("column", cfgW)] rfl (fun _ => Except.error "ignored") []

/-- C9: when the stored config record's `"value"` is not valid JSON, the
config load raises the decode error and it propagates out of the `get`,
`get_multi` and `put_multi` operation that triggered the load, instead of
being swallowed or treated as an empty configuration. -/
theorem config_decode_error_surfaces
    (alloc : EKey → Nat → List EKey) (env : Option String)
    (compression : String) (lvl : Int)
    (fetch : String → String → FetchResult)
    (jl : String → Except String NsConfig) (st : ClientState)
    (ent : Entity) (s msg : String) (keys : List EKey)
    (entities : List Entity) (k : EKey)
    (hc : st.cachedConfig = none)
    (hs : storeGet st.store (configKeyOf st.ns) = some ent)
    (hv : ent.getAttr "value" = some (Value.vStr s))
    (hj : jl s = Except.error msg) :
    (configProperty jl st).1 = Except.error msg ∧
    (get_multi_st fetch jl st keys).1 = Except.error msg ∧
    (storeGet st.store k ≠ none →
      (get_st fetch jl st k).1 = Except.error msg) ∧
    (put_multi_st alloc env compression lvl jl st entities).1 =
      Except.error msg := by
  have hcp := configProperty_decode_error jl st ent s msg hc hs hv hj
  refine ⟨by rw [hcp], ?_, ?_, ?_⟩
  · unfold get_multi_st
    rw [hcp]
  · intro hk
    unfold get_st
    cases hgk : storeGet st.store k with
    | none => exact absurd hgk hk
    | some e0 =>
      rw [hcp]
  · unfold put_multi_st
    rw [hcp]

/-- Witness for C9: a malformed stored value makes the config load and the
batch operations fail with the decode error. -/
theorem c9_witness :
    (configProperty jlW
      { ns := "nsp", cachedConfig := none,
        store := [(configKeyOf "nsp",
          { key := configKeyOf "nsp",
            attrs := [("value", Value.vStr "not json")] })] }).1 =
      Except.error "bad json" ∧
    (get_multi_st c3Fetch jlW
      { ns := "nsp", cachedConfig := none,
        store := [(configKeyOf "nsp",
          { key := configKeyOf "nsp",
            attrs := [("value", Value.vStr "not json")] })] }
      [configKeyOf "nsp"]).1 = Except.error "bad json" ∧
    (storeGet
        [(configKeyOf "nsp",
          ({ key := configKeyOf "nsp",
             attrs := [("value", Value.vStr "not json")] } : Entity))]
        (configKeyOf "nsp") ≠ none →
      (get_st c3Fetch jlW
        { ns := "nsp", cachedConfig := none,
          store := [(configKeyOf "nsp",
            { key := configKeyOf "nsp",
              attrs := [("value", Value.vStr "not json")] })] }
        (configKeyOf "nsp")).1 = Except.error "bad json") ∧
    (put_multi_st allocW none "gzip" 6 jlW
      { ns := "nsp", cachedConfig := none,
        store := [(configKeyOf "nsp",
          { key := configKeyOf "nsp",
            attrs := [("value", Value.vStr "not json")] })] }
      [entY]).1 = Except.error "bad json" :=
  config_decode_error_surfaces allocW none "gzip" 6 c3Fetch jlW
    _ _ "not json" "bad json" [configKeyOf "nsp"] [entY] (configKeyOf "nsp")
    rfl rfl rfl rfl

/-- C10: when the initial config load fails, the cache has already been set
to the empty (non-`None`) dict, so it records the empty mapping; every
later config access returns that empty mapping without re-fetching or
re-raising (for any store contents and decoder), and the batch operations
then behave as if no columns were configured: reads return the fetched
records unchanged and writes commit the batch with no column stripped or
uploaded. -/
theorem config_error_caches_empty
    (jl : String → Except String NsConfig) (st : ClientState)
    (ent : Entity) (s msg : String)
    (hc : st.cachedConfig = none)
    (hs : storeGet st.store (configKeyOf st.ns) = some ent)
    (hv : ent.getAttr "value" = some (Value.vStr s))
    (hj : jl s = Except.error msg) :
    configProperty jl st = (Except.error msg,
      { st with cachedConfig := some [] }) ∧
    (∀ (jl' : String → Except String NsConfig)
      (store' : List (EKey × Entity)),
      configProperty jl' { st with cachedConfig := some [], store := store' } =
        (Except.ok [], { st with cachedConfig := some [], store := store' })) ∧
    (∀ fetch jl' keys,
      (get_multi_st fetch jl' { st with cachedConfig := some [] } keys).1 =
        Except.ok (keys.filterMap (storeGet st.store))) ∧
    (∀ alloc env compression lvl jl' entities,
      (put_multi_st alloc env compression lvl jl'
        { st with cachedConfig := some [] } entities).1 =
        Except.ok (allocateIds alloc entities,
          allocEvents entities ++ [Event.commit (allocateIds alloc entities)])) := by
  refine ⟨configProperty_decode_error jl st ent s msg hc hs hv hj, ?_, ?_, ?_⟩
  · intro jl' store'
    exact configProperty_cached jl' _ [] rfl
  · intro fetch jl' keys
    unfold get_multi_st
    rw [configProperty_cached jl' _ [] rfl]
    rfl
  · intro alloc env compression lvl jl' entities
    unfold put_multi_st
    rw [configProperty_cached jl' _ [] rfl]
    rfl

/-- Witness for C10 at concrete inputs: after the failed load the cache
holds the empty dict; the next access returns it and a write commits the
batch untouched. -/
theorem c10_witness :
    configProperty jlW
      { ns := "nsp", cachedConfig := none,
        store := [(configKeyOf "nsp",
          { key := configKeyOf "nsp",
            attrs := [("value", Value.vStr "not json")] })] } =
      (Except.error "bad json",
       { ns := "nsp", cachedConfig := some [],
         store := [(configKeyOf "nsp",
           { key := configKeyOf "nsp",
             attrs := [("value", Value.vStr "not json")] })] }) ∧
    (∀ (jl' : String → Except String NsConfig)
      (store' : List (EKey × Entity)),
      configProperty jl'
        { ns := "nsp", cachedConfig := some [], store := store' } =
        (Except.ok [],
         { ns := "nsp", cachedConfig := some [], store := store' })) ∧
    (∀ alloc env compression lvl jl' entities,
      (put_multi_st alloc env compression lvl jl'
        { ns := "nsp", cachedConfig := some [],
          store := [(configKeyOf "nsp",
            { key := configKeyOf "nsp",
              attrs := [("value", Value.vStr "not json")] })] } entities).1 =
        Except.ok (allocateIds alloc entities,
          allocEvents entities ++ [Event.commit (allocateIds alloc entities)])) := by
  have h := config_error_caches_empty jlW
    { ns := "nsp", cachedConfig := none,
      store := [(configKeyOf "nsp",
        { key := configKeyOf "nsp",
          attrs := [("value", Value.vStr "not json")] })] }
    { key := configKeyOf "nsp", attrs := [("value", Value.vStr "not json")] }
    "not json" "bad json" rfl rfl rfl rfl
  exact ⟨h.1, fun jl' store' => h.2.1 jl' store',
    fun alloc env compression lvl jl' entities =>
      h.2.2.2 alloc env compression lvl jl' entities⟩

/-- C7: `add_config` JSON-encodes the config, writes it under the
well-known key (kind `namespace + "_config"`, name `"column"`) in a single
metadata-store call, resets the config cache to `None`, and returns the
written record; provided the codec round-trips, the next config access
decodes the newly written configuration and subsequent `get_multi` /
`put_multi` on the same facade use it, not a stale one. -/
theorem add_config_spec (jd : NsConfig → String)
    (jl : String → Except String NsConfig) (st : ClientState)
    (cfg : NsConfig) (hrt : jl (jd cfg) = Except.ok cfg) :
    (add_config jd st cfg).1.1.key = configKeyOf st.ns ∧
    (add_config jd st cfg).1.1.getAttr "value" =
      some (Value.vStr (jd cfg)) ∧
    (add_config jd st cfg).1.2 =
      [Event.commit [(add_config jd st cfg).1.1]] ∧
    (add_config jd st cfg).2.cachedConfig = none ∧
    storeGet (add_config jd st cfg).2.store (configKeyOf st.ns) =
      some (add_config jd st cfg).1.1 ∧
    configProperty jl (add_config jd st cfg).2 =
      (Except.ok [("column", cfg)],
       { (add_config jd st cfg).2 with
           cachedConfig := some [("column", cfg)] }) ∧
    (∀ fetch keys, (get_multi_st fetch jl (add_config jd st cfg).2 keys).1 =
      read_columns fetch cfg
        (keys.filterMap (storeGet (add_config jd st cfg).2.store))) ∧
    (∀ alloc env compression lvl entities,
      (put_multi_st alloc env compression lvl jl (add_config jd st cfg).2
        entities).1 =
      put_multi alloc env compression lvl cfg entities) := by
  have hsg : storeGet (add_config jd st cfg).2.store (configKeyOf st.ns) =
      some (add_config jd st cfg).1.1 :=
    storeGet_storePut_self st.store (add_config jd st cfg).1.1
  have hcp : configProperty jl (add_config jd st cfg).2 =
      (Except.ok [("column", cfg)],
       { (add_config jd st cfg).2 with
           cachedConfig := some [("column", cfg)] }) :=
    configProperty_decoded jl (add_config jd st cfg).2
      (add_config jd st cfg).1.1 (jd cfg) cfg rfl hsg rfl hrt
  refine ⟨rfl, rfl, rfl, rfl, hsg, hcp, ?_, ?_⟩
  · intro fetch keys
    unfold get_multi_st
    rw [hcp]
    rfl
  · intro alloc env compression lvl entities
    unfold put_multi_st
    simp only [hcp]
    unfold put_multi write_columns
    cases hfold : cfg.foldlM (writeStep env compression lvl)
        (allocateIds alloc entities, allocEvents entities) with
    | error e =>
      have hfold' : List.foldlM (writeStep env compression lvl)
          (allocateIds alloc entities, allocEvents entities)
          (lookupD [("column", cfg)] "column" []) = Except.error e := hfold
      rw [hfold']
      rfl
    | ok r =>
      obtain ⟨ents, evs⟩ := r
      have hfold' : List.foldlM (writeStep env compression lvl)
          (allocateIds alloc entities, allocEvents entities)
          (lookupD [("column", cfg)] "column" []) = Except.ok (ents, evs) := hfold
      rw [hfold']
      rfl

/-- JSON encoder of the C7 witness, matching `jlW` on `cfgW`. -/
def jdW : NsConfig → String := fun _ => "J"

/-- Pre-`add_config` state of the C7 witness: a stale empty config is
cached and the store has no record. -/
def st0W : ClientState :=
  { ns := "nsp", cachedConfig := some [("column", [])], store := [] }

/-- Witness for C7 at a concrete input: `add_config` writes the encoded
record, invalidates the cache, and the next access decodes `cfgW` rather
than the stale cached empty mapping. -/
theorem c7_witness :
    (add_config jdW st0W cfgW).1.1.key = configKeyOf "nsp" ∧
    (add_config jdW st0W cfgW).1.1.getAttr "value" =
      some (Value.vStr (jdW cfgW)) ∧
    (add_config jdW st0W cfgW).1.2 =
      [Event.commit [(add_config jdW st0W cfgW).1.1]] ∧
    (add_config jdW st0W cfgW).2.cachedConfig = none ∧
    storeGet (add_config jdW st0W cfgW).2.store (configKeyOf "nsp") =
      some (add_config jdW st0W cfgW).1.1 ∧
    configProperty jlW (add_config jdW st0W cfgW).2 =
      (Except.ok [("column", cfgW)],
       { (add_config jdW st0W cfgW).2 with
           cachedConfig := some [("column", cfgW)] }) ∧
    (∀ fetch keys,
      (get_multi_st fetch jlW (add_config jdW st0W cfgW).2 keys).1 =
      read_columns fetch cfgW
        (keys.filterMap (storeGet (add_config jdW st0W cfgW).2.store))) ∧
    (∀ alloc env compression lvl entities,
      (put_multi_st alloc env compression lvl jlW
        (add_config jdW st0W cfgW).2 entities).1 =
      put_multi alloc env compression lvl cfgW entities) :=
  add_config_spec jdW jlW st0W cfgW rfl

end DatastoreFlex
